import Mathlib

/-!
Shallow embedding of the quickfix dictionary compiler (`src/build.py`) and of
the runtime semantics of the Python code it emits.

Representation choices, kept uniform throughout:
* Python `dict` / `OrderedDict` values become insertion-ordered association
  lists `List (κ × ν)`; `lookupA` is `d.get`, membership tests are
  `(lookupA m k).isSome`, and in-place mutation of an entry becomes `updA`.
* Qualified namespace names are dotted strings in the source, built only
  through `to_ns_name`, which asserts that every appended segment contains no
  dot; we therefore represent a qualified name by its list of segments, so
  `to_ns_name` is list append and `from_ns_name` takes the last segment.
* Python `assert`/exceptions become `Except BErr` results; an explicit `fuel`
  argument models the recursion (a cyclic component table would make the
  Python recurse forever; running out of fuel is the distinguished error
  `BErr.fuelOut`, never confused with an assertion failure).
-/

def lookupA {κ ν : Type} [BEq κ] (m : List (κ × ν)) (k : κ) : Option ν :=
  match m.find? (fun p => p.1 == k) with
  | some p => some p.2
  | none => none

def updA {κ ν : Type} [BEq κ] (m : List (κ × ν)) (k : κ) (f : ν → ν) : List (κ × ν) :=
  m.map (fun p => if p.1 == k then (p.1, f p.2) else p)

def exOk {ε α : Type} : Except ε α → Bool
  | .ok _ => true
  | .error _ => false

/-- Primitive Python carrier of a dictionary type: the source's `TYP_MAP`
collapses every FIX type string onto one of the four constructors
`str`, `bool`, `float`, `int`. -/
inductive PTy where
  | pstr
  | pbool
  | pfloat
  | pint
deriving DecidableEq, Repr

/-- Translation of `TYP_MAP` from `src/build.py`, entry for entry. -/
def TYP_MAP : List (String × PTy) := [
  ("STRING", .pstr),
  ("CURRENCY", .pstr),
  ("MULTIPLEVALUESTRING", .pstr),
  ("MULTIPLESTRINGVALUE", .pstr),
  ("MULTIPLECHARVALUE", .pstr),
  ("EXCHANGE", .pstr),
  ("LOCALMKTDATE", .pstr),
  ("DATA", .pstr),
  ("MONTHYEAR", .pstr),
  ("DAYOFMONTH", .pstr),
  ("COUNTRY", .pstr),
  ("TZTIMEONLY", .pstr),
  ("TZTIMESTAMP", .pstr),
  ("XMLDATA", .pstr),
  ("LANGUAGE", .pstr),
  ("UTCTIMESTAMP", .pstr),
  ("UTCDATE", .pstr),
  ("UTCDATEONLY", .pstr),
  ("UTCTIMEONLY", .pstr),
  ("DATE", .pstr),
  ("TIME", .pstr),
  ("CHAR", .pstr),
  ("BOOLEAN", .pbool),
  ("PRICEOFFSET", .pfloat),
  ("FLOAT", .pfloat),
  ("PRICE", .pfloat),
  ("AMT", .pfloat),
  ("QTY", .pfloat),
  ("PERCENTAGE", .pfloat),
  ("INT", .pint),
  ("NUMINGROUP", .pint),
  ("SEQNUM", .pint),
  ("LENGTH", .pint),
  ("NumInGroup", .pint)
]

def isLowerAZ (c : Char) : Bool := 'a' ≤ c && c ≤ 'z'

def isUpperAZ (c : Char) : Bool := 'A' ≤ c && c ≤ 'Z'

def isDigit09 (c : Char) : Bool := '0' ≤ c && c ≤ '9'

/-- Match of `CAMEL_PATTERN` at one character: the regex
`((?<=[a-z0-9])[A-Z]|(?!^)[A-Z](?=[a-z]))` matches a single upper-case letter
either preceded by a lower-case letter or digit, or not at the start and
followed by a lower-case letter. -/
def camelMatch (prev : Option Char) (c : Char) (next : Option Char) : Bool :=
  isUpperAZ c &&
    ((match prev with
      | some p => isLowerAZ p || isDigit09 p
      | none => false) ||
     (prev.isSome &&
      (match next with
       | some n => isLowerAZ n
       | none => false)))

/-- Left-to-right scan of `CAMEL_PATTERN.sub`: every matched character is
replaced by an underscore followed by itself (each match is one character
wide, so the previous character of the original string is always the
character just emitted). -/
def camelSubAux : Option Char → List Char → List Char
  | _, [] => []
  | prev, c :: rest =>
    if camelMatch prev c rest.head? then
      '_' :: c :: camelSubAux (some c) rest
    else
      c :: camelSubAux (some c) rest

/-- Translation of `camel_to_sname`: regex substitution then `.lower()`. -/
def camel_to_sname (s : String) : String :=
  ⟨(camelSubAux none s.toList).map Char.toLower⟩

/-- Translation of `valid_ident`: a leading digit or the reserved word
`yield` gets an underscore prepended.  (The source indexes `tag[0]`, so it
presumes a non-empty tag; an empty tag is mapped to itself here.) -/
def valid_ident (tag : String) : String :=
  if (match tag.toList with
      | [] => false
      | c :: _ => c.isDigit) || tag == "yield" then
    "_" ++ tag
  else
    tag

/-- Translation of `to_ns_name` under the list-of-segments representation of
dotted names: appending one (dot-free) segment. -/
def to_ns_name (ns : List String) (name : String) : List String := ns ++ [name]

/-- Translation of `from_ns_name`: the last dotted segment. -/
def from_ns_name (n : List String) : String := n.getLastD ""

structure FieldMeta where
  number : Int
  name : String
  type_name : String
  enums : List (String × String)
deriving DecidableEq, Repr

inductive ItemKind where
  | fieldK
  | groupK
  | componentK
deriving DecidableEq, Repr

structure Item where
  name : String
  required : String
  kind : ItemKind
deriving DecidableEq, Repr

structure ClassMeta where
  ns_name : List String
  msgcat : Option String
  msgtype : Option String
  items : List (String × Item)
deriving DecidableEq, Repr

structure ComponentMeta where
  ns_name : List String
  items : List (String × Item)
deriving DecidableEq, Repr

/-- Compile-time failures: every Python `assert`, `KeyError` and
`RuntimeError` of the generator becomes one constructor, plus the
distinguished `fuelOut` for exhausted recursion fuel. -/
inductive BErr where
  | fuelOut
  | illegalName (name : String)
  | unknownType (typ : String)
  | duplicateField (name : String)
  | nestedFieldEnum (tag : String)
  | duplicateComponent (ns : List String)
  | nameCollision (name : String)
  | badTag (tag : String)
  | duplicateClass (ns : List String)
  | componentNotFound (name : String)
  | keyError (name : String)
  | emptyGroup (ns : List String)
  | camelAssert (name : String)
  | badRequired (req : String)
  | timestampEnum (name : String)
  | enumNameCollision (name : String)
  | enumConvertError (lit : String)
  | componentNotExpanded (name : String)
  | notTopLevel (ns : List String)
  | msgAttrMissing
deriving DecidableEq, Repr

/-- Child element of a `field` element: the source demands tag `value` and
reads the `enum` and `description` attributes. -/
structure ValueElem where
  tag : String
  enumLit : String
  description : String
deriving DecidableEq, Repr

/-- Fields-section element: the attributes `number`, `name`, `type` the
source reads (`number` already parsed to an integer) and the child list. -/
structure FieldElem where
  number : Int
  name : String
  typ : String
  children : List ValueElem
deriving DecidableEq, Repr

/-- Enum-collection loop of `traverse_fields_rec`: children must all carry
tag `value`; their `(enum, description)` attribute pairs are kept in order. -/
def collectEnums : List ValueElem → Except BErr (List (String × String))
  | [] => .ok []
  | v :: rest =>
    if v.tag == "value" then
      match collectEnums rest with
      | .ok es => .ok ((v.enumLit, v.description) :: es)
      | .error e => .error e
    else
      .error (.nestedFieldEnum v.tag)

/-- Translation of `traverse_fields_rec`: the dot-freeness assert, the
known-type assert, the duplicate-name assert (note: the source checks only
the name, not the number), the enum loop, then insertion keyed by name. -/
def traverse_fields_rec (element : FieldElem) (map_fields : List (String × FieldMeta)) :
    Except BErr (List (String × FieldMeta)) :=
  if element.name.toList.contains '.' then .error (.illegalName element.name)
  else if (lookupA TYP_MAP element.typ).isNone then .error (.unknownType element.typ)
  else if (lookupA map_fields element.name).isSome then .error (.duplicateField element.name)
  else
    match collectEnums element.children with
    | .error e => .error e
    | .ok enums =>
      .ok (map_fields ++ [(element.name, ⟨element.number, element.name, element.typ, enums⟩)])

/-- Loop of `traverse_fields` over the fields section. -/
def traverse_fields_loop : List FieldElem → List (String × FieldMeta) →
    Except BErr (List (String × FieldMeta))
  | [], m => .ok m
  | e :: rest, m =>
    match traverse_fields_rec e m with
    | .error err => .error err
    | .ok m' => traverse_fields_loop rest m'

/-- Translation of `traverse_fields`: fold the per-field step over an
initially empty registry. -/
def traverse_fields (fields : List FieldElem) : Except BErr (List (String × FieldMeta)) :=
  traverse_fields_loop fields []

/-- Child element inside a component definition or a message/group body:
the three reference kinds the source accepts, plus a catch-all for the
`RuntimeError` branch on any other tag. -/
inductive MElem where
  | fieldE (name required : String)
  | groupE (name required : String) (children : List MElem)
  | componentE (name required : String)
  | otherE (tag : String)

/-- Components-section element: its `name` attribute and child list. -/
structure CompElem where
  name : String
  children : List MElem

/-- Messages-section element: `name`, `msgcat`, `msgtype` attributes and the
child list. -/
structure MsgDef where
  name : String
  msgcat : String
  msgtype : String
  children : List MElem

/-- Dictionary document: the three sections the source walks (an absent
`components` section is tolerated by the source, hence the `Option`). -/
structure Doc where
  fields : List FieldElem
  components : Option (List CompElem)
  messages : List MsgDef

mutual

/-- Translation of `traverse_components_rec`: the duplicate-component assert
on the qualified key, then the item loop.  The source first inserts the (still
empty) `ComponentMeta` into the map and mutates its `items` through the map
entry while looping, which is what the `updA` threading in
`traverse_components_items` reproduces. -/
def traverse_components_rec : Nat → String → List MElem →
    List (List String × ComponentMeta) → List String →
    Except BErr (List (List String × ComponentMeta))
  | 0, _, _, _, _ => .error .fuelOut
  | fuel + 1, name, children, map_components, ns =>
    let ns_name := to_ns_name ns name
    if (lookupA map_components ns_name).isSome then .error (.duplicateComponent ns_name)
    else
      traverse_components_items fuel ns_name children
        (map_components ++ [(ns_name, ⟨ns_name, []⟩)])

/-- Item loop of `traverse_components_rec`: fields, groups and components are
appended to the owning component's item list after the duplicate-name assert;
a group child additionally recurses, rooting the nested component under the
owner's qualified name. -/
def traverse_components_items : Nat → List String → List MElem →
    List (List String × ComponentMeta) →
    Except BErr (List (List String × ComponentMeta))
  | 0, _, _, _ => .error .fuelOut
  | _ + 1, _, [], map_components => .ok map_components
  | fuel + 1, key, child :: rest, map_components =>
    match lookupA map_components key with
    | none => .error (.keyError (from_ns_name key))
    | some component =>
      match child with
      | .fieldE n r =>
        if (lookupA component.items n).isSome then .error (.nameCollision n)
        else
          traverse_components_items fuel key rest
            (updA map_components key (fun c => ⟨c.ns_name, c.items ++ [(n, ⟨n, r, .fieldK⟩)]⟩))
      | .groupE n r ch =>
        if (lookupA component.items n).isSome then .error (.nameCollision n)
        else
          match traverse_components_rec fuel n ch
              (updA map_components key (fun c => ⟨c.ns_name, c.items ++ [(n, ⟨n, r, .groupK⟩)]⟩))
              key with
          | .error e => .error e
          | .ok m' => traverse_components_items fuel key rest m'
      | .componentE n r =>
        if (lookupA component.items n).isSome then .error (.nameCollision n)
        else
          traverse_components_items fuel key rest
            (updA map_components key (fun c => ⟨c.ns_name, c.items ++ [(n, ⟨n, r, .componentK⟩)]⟩))
      | .otherE t => .error (.badTag t)

end

/-- Translation of `traverse_components`: an absent section yields the empty
registry; otherwise every child is traversed with the empty root namespace. -/
def traverse_components (fuel : Nat) : Option (List CompElem) →
    Except BErr (List (List String × ComponentMeta))
  | none => .ok []
  | some comps =>
    comps.foldlM (fun m c => traverse_components_rec fuel c.name c.children m []) []

/-- Translation of `expand_component_rec`.  The source loop over
`group_or_component.items.values()` is flattened into the recursion: the
state of one iteration is the class under construction plus the class map, so
the remaining item list together with the originating component's namespace
(`gocNs`) is carried explicitly.  The mutation of `class_meta` becomes the
returned updated `ClassMeta`; the in-place growth of a freshly inserted
sub-class becomes insert-placeholder, recurse, then `updA` the final value.
The trailing `nsArg` parameter mirrors the source's `ns_name` argument, which
is written (shadowed) before every read and therefore dead. -/
def expand_component_rec : Nat → ClassMeta → List String → List Item →
    List (List String × ClassMeta) → List (List String × ComponentMeta) → List String →
    Except BErr (ClassMeta × List (List String × ClassMeta))
  | 0, _, _, _, _, _, _ => .error .fuelOut
  | _ + 1, class_meta, _, [], map_classes, _, _ => .ok (class_meta, map_classes)
  | fuel + 1, class_meta, gocNs, item :: rest, map_classes, map_components, nsArg =>
    match item.kind with
    | .fieldK =>
      if (lookupA class_meta.items item.name).isSome then .error (.nameCollision item.name)
      else
        expand_component_rec fuel
          ⟨class_meta.ns_name, class_meta.msgcat, class_meta.msgtype,
            class_meta.items ++ [(item.name, item)]⟩
          gocNs rest map_classes map_components nsArg
    | .groupK =>
      if (lookupA class_meta.items item.name).isSome then .error (.nameCollision item.name)
      else
        let class_meta1 : ClassMeta :=
          ⟨class_meta.ns_name, class_meta.msgcat, class_meta.msgtype,
            class_meta.items ++ [(item.name, item)]⟩
        let ns_name1 := to_ns_name class_meta.ns_name item.name
        let sub_class0 : ClassMeta := ⟨ns_name1, none, none, []⟩
        if (lookupA map_classes ns_name1).isSome then .error (.duplicateClass ns_name1)
        else
          let map_classes1 := map_classes ++ [(ns_name1, sub_class0)]
          let ns_component_name := to_ns_name gocNs item.name
          match lookupA map_components ns_component_name with
          | none => .error (.componentNotFound item.name)
          | some sub_group =>
            match expand_component_rec fuel sub_class0 sub_group.ns_name
                (sub_group.items.map (·.2)) map_classes1 map_components ns_name1 with
            | .error e => .error e
            | .ok (sub_class1, map_classes2) =>
              expand_component_rec fuel class_meta1 gocNs rest
                (updA map_classes2 ns_name1 (fun _ => sub_class1)) map_components nsArg
    | .componentK =>
      match lookupA map_components [item.name] with
      | none => .error (.componentNotFound item.name)
      | some sub_component =>
        match expand_component_rec fuel class_meta sub_component.ns_name
            (sub_component.items.map (·.2)) map_classes map_components class_meta.ns_name with
        | .error e => .error e
        | .ok (class_meta2, map_classes2) =>
          expand_component_rec fuel class_meta2 gocNs rest map_classes2 map_components nsArg

mutual

/-- Translation of `traverse_classes_rec`: attribute reading (the `msgcat`
and `msgtype` attributes are read, with a `KeyError` when absent, only at the
empty root namespace), the duplicate-class assert, insertion, then the item
loop.  As for components, the source inserts the class before the loop and
mutates it through the alias, which the final `updA` reproduces. -/
def traverse_classes_rec : Nat → List String → String → Option String → Option String →
    List MElem → List (List String × ClassMeta) → List (List String × ComponentMeta) →
    Except BErr (List (List String × ClassMeta))
  | 0, _, _, _, _, _, _, _ => .error .fuelOut
  | fuel + 1, ns, name, msgcatAttr, msgtypeAttr, children, map_classes, map_components =>
    let ns_name := to_ns_name ns name
    match (if ns = [] then
             match msgcatAttr, msgtypeAttr with
             | some c, some t => Except.ok (some c, some t)
             | _, _ => Except.error BErr.msgAttrMissing
           else Except.ok (none, none) : Except BErr (Option String × Option String)) with
    | .error e => .error e
    | .ok (msgcat, msgtype) =>
      if (lookupA map_classes ns_name).isSome then .error (.duplicateClass ns_name)
      else
        let class_meta : ClassMeta := ⟨ns_name, msgcat, msgtype, []⟩
        match traverse_class_items fuel class_meta children
            (map_classes ++ [(ns_name, class_meta)]) map_components with
        | .error e => .error e
        | .ok (class1, map1) => .ok (updA map1 ns_name (fun _ => class1))

/-- Item loop of `traverse_classes_rec`: a field is inserted; a group is
inserted and recursed into under the current class's namespace; a component
reference is expanded in place through `expand_component_rec` (the reference
itself is never inserted as an item). -/
def traverse_class_items : Nat → ClassMeta → List MElem →
    List (List String × ClassMeta) → List (List String × ComponentMeta) →
    Except BErr (ClassMeta × List (List String × ClassMeta))
  | 0, _, _, _, _ => .error .fuelOut
  | _ + 1, class_meta, [], map_classes, _ => .ok (class_meta, map_classes)
  | fuel + 1, class_meta, child :: rest, map_classes, map_components =>
    match child with
    | .fieldE n r =>
      if (lookupA class_meta.items n).isSome then .error (.nameCollision n)
      else
        traverse_class_items fuel
          ⟨class_meta.ns_name, class_meta.msgcat, class_meta.msgtype,
            class_meta.items ++ [(n, ⟨n, r, .fieldK⟩)]⟩
          rest map_classes map_components
    | .groupE n r ch =>
      if (lookupA class_meta.items n).isSome then .error (.nameCollision n)
      else
        match traverse_classes_rec fuel class_meta.ns_name n none none ch
            map_classes map_components with
        | .error e => .error e
        | .ok map1 =>
          traverse_class_items fuel
            ⟨class_meta.ns_name, class_meta.msgcat, class_meta.msgtype,
              class_meta.items ++ [(n, ⟨n, r, .groupK⟩)]⟩
            rest map1 map_components
    | .componentE n _ =>
      if (lookupA class_meta.items n).isSome then .error (.nameCollision n)
      else
        match lookupA map_components [n] with
        | none => .error (.keyError n)
        | some component =>
          match expand_component_rec fuel class_meta component.ns_name
              (component.items.map (·.2)) map_classes map_components class_meta.ns_name with
          | .error e => .error e
          | .ok (class1, map1) =>
            traverse_class_items fuel class1 rest map1 map_components
    | .otherE t => .error (.badTag t)

end

/-- Translation of `traverse_classes`: every message is traversed from the
empty root namespace into a shared class map. -/
def traverse_classes (fuel : Nat) (messages : List MsgDef)
    (map_components : List (List String × ComponentMeta)) :
    Except BErr (List (List String × ClassMeta)) :=
  messages.foldlM
    (fun m msg =>
      traverse_classes_rec fuel [] msg.name (some msg.msgcat) (some msg.msgtype)
        msg.children m map_components)
    []

/-- Loop of `get_ids` over a class's items: each item's tag number is read
from the field registry (a missing field raises `KeyError`). -/
def get_ids_loop : List (String × Item) → List (String × FieldMeta) →
    Except BErr (List Int)
  | [], _ => .ok []
  | p :: rest, map_fields =>
    match lookupA map_fields p.2.name with
    | none => .error (.keyError p.2.name)
    | some f =>
      match get_ids_loop rest map_fields with
      | .error e => .error e
      | .ok ids => .ok (f.number :: ids)

/-- Translation of `get_ids`: the group's own tag number (looked up by the
last namespace segment), then the member tags, the non-empty assert, and the
trailing 0 sentinel. -/
def get_ids (class_meta : ClassMeta) (map_fields : List (String × FieldMeta)) :
    Except BErr (Int × List Int) :=
  let item_name := from_ns_name class_meta.ns_name
  match lookupA map_fields item_name with
  | none => .error (.keyError item_name)
  | some f =>
    match get_ids_loop class_meta.items map_fields with
    | .error e => .error e
    | .ok ids =>
      if ids.length > 0 then .ok (f.number, ids ++ [0])
      else .error (.emptyGroup class_meta.ns_name)

/-- Entry of the `s_fields` list that `generate_class_def` sorts: the
`(is_default, idx_ori)` sort key, the snake-case identifier and the item. -/
structure GenField where
  isDefault : Nat
  idx : Nat
  sname : String
  item : Item
deriving DecidableEq, Repr

/-- Strict comparison used to sort `s_fields`.  The source sorts Python
tuples `(is_default, idx_ori, line)` lexicographically; the `idx_ori`
components are pairwise distinct positions, so the third component never
takes part in a comparison and is omitted here. -/
def genLt (a b : GenField) : Bool :=
  a.isDefault < b.isDefault || (a.isDefault == b.isDefault && a.idx < b.idx)

def insertSorted (x : GenField) : List GenField → List GenField
  | [] => [x]
  | y :: ys => if genLt x y then x :: y :: ys else y :: insertSorted x ys

/-- Sorting of the `s_fields` list (`s_fields.sort()`): with pairwise
distinct keys every correct sort produces the same list, so an insertion
sort stands in for Python's timsort. -/
def isort : List GenField → List GenField
  | [] => []
  | x :: l => insertSorted x (isort l)

/-- Semantic content of one emitted class definition: its qualified name,
the record fields in emitted (sorted) order, and the nested group classes. -/
inductive EmittedClass where
  | mk (ns_name : List String) (s_fields : List GenField) (subs : List EmittedClass)

def EmittedClass.ns_name : EmittedClass → List String
  | .mk n _ _ => n

def EmittedClass.s_fields : EmittedClass → List GenField
  | .mk _ f _ => f

def EmittedClass.subs : EmittedClass → List EmittedClass
  | .mk _ _ s => s

mutual

/-- Translation of `generate_class_def`, keeping its checks and structure and
abstracting the emitted text: a nested class (dotted name, i.e. more than one
segment) computes its group ids up front for the `to_raw` constructor; then
the item loop runs; then `s_fields.sort()`. -/
def generate_class_def : Nat → ClassMeta → List (List String × ClassMeta) →
    List (String × FieldMeta) → Except BErr EmittedClass
  | 0, _, _, _ => .error .fuelOut
  | fuel + 1, class_meta, map_classes, map_fields =>
    match (if class_meta.ns_name.length ≤ 1 then Except.ok ()
           else
             match get_ids class_meta map_fields with
             | .error e => .error e
             | .ok _ => .ok () : Except BErr Unit) with
    | .error e => .error e
    | .ok _ =>
      match gen_items fuel class_meta.ns_name 0 class_meta.items map_classes map_fields with
      | .error e => .error e
      | .ok (gfs, subs) => .ok (.mk class_meta.ns_name (isort gfs) subs)

/-- Item loop of `generate_class_def`.  For each item in insertion order:
the snake-case assert (`s_item_name != item_name`), the required-flag assert,
then the per-kind processing — a field resolves its registry entry and
primitive type (an enum field must not be a timestamp) and gets sort key 0
exactly when required, a group resolves the nested class, computes its ids
and recursively generates it (sort key stays 1), a component is a hard error
because expansion must have removed it. -/
def gen_items : Nat → List String → Nat → List (String × Item) →
    List (List String × ClassMeta) → List (String × FieldMeta) →
    Except BErr (List GenField × List EmittedClass)
  | 0, _, _, _, _, _ => .error .fuelOut
  | _ + 1, _, _, [], _, _ => .ok ([], [])
  | fuel + 1, ns, idx, (item_name, item) :: rest, map_classes, map_fields =>
    let s_item_name := valid_ident (camel_to_sname item_name)
    if s_item_name == item_name then .error (.camelAssert item_name)
    else if !(item.required == "" || item.required == "Y" || item.required == "N") then
      .error (.badRequired item.required)
    else
      match item.kind with
      | .fieldK =>
        match lookupA map_fields item_name with
        | none => .error (.keyError item_name)
        | some f =>
          match lookupA TYP_MAP f.type_name with
          | none => .error (.keyError f.type_name)
          | some _ =>
            if f.enums.length > 0 && f.type_name == "UTCTIMESTAMP" then
              .error (.timestampEnum item_name)
            else
              let is_default := if item.required != "Y" then 1 else 0
              match gen_items fuel ns (idx + 1) rest map_classes map_fields with
              | .error e => .error e
              | .ok (gfs, subs) => .ok (⟨is_default, idx, s_item_name, item⟩ :: gfs, subs)
      | .groupK =>
        match lookupA map_classes (to_ns_name ns item_name) with
        | none => .error (.keyError item_name)
        | some sub_class_meta =>
          match get_ids sub_class_meta map_fields with
          | .error e => .error e
          | .ok _ =>
            match generate_class_def fuel sub_class_meta map_classes map_fields with
            | .error e => .error e
            | .ok sub =>
              match gen_items fuel ns (idx + 1) rest map_classes map_fields with
              | .error e => .error e
              | .ok (gfs, subs) => .ok (⟨1, idx, s_item_name, item⟩ :: gfs, sub :: subs)
      | .componentK => .error (.componentNotExpanded item_name)

end

/-- Python value of one of the four primitive carriers. -/
inductive PVal where
  | vs (v : String)
  | vi (v : Int)
  | vf (v : Rat)
  | vb (v : Bool)
deriving DecidableEq, Repr

/-- Python `int(...)` on a wire string. -/
def pyInt? (s : String) : Option Int := s.toInt?

def digitVal (cs : List Char) : Nat :=
  cs.foldl (fun a c => a * 10 + (c.toNat - 48)) 0

/-- Python `float(...)` on the plain decimal literals the dictionaries use:
optional sign, integer digits, optional fraction (exponent forms, which no
claim exercises, are not modelled). -/
def pyFloat? (s : String) : Option Rat :=
  let cs := s.toList
  let signed : Int × List Char :=
    match cs with
    | '-' :: r => (-1, r)
    | '+' :: r => (1, r)
    | r => (1, r)
  let ip := signed.2.takeWhile (fun c => c ≠ '.')
  let rest := signed.2.dropWhile (fun c => c ≠ '.')
  match rest with
  | [] =>
    if ip.isEmpty || !ip.all isDigit09 then none
    else some ((signed.1 : Rat) * (digitVal ip : Rat))
  | '.' :: frac =>
    if ip.isEmpty && frac.isEmpty then none
    else if ip.all isDigit09 && frac.all isDigit09 then
      some ((signed.1 : Rat) *
        ((digitVal ip : Rat) + (digitVal frac : Rat) / ((10 : Rat) ^ frac.length)))
    else none
  | _ => none

/-- Compile-time converter `typefun` of `write_enums_to_file`: `str`, `int`,
`float`, or the bool table sending `Y` to true and both `N` and the empty
string to false. -/
def convCompile (ty : PTy) (s : String) : Option PVal :=
  match ty with
  | .pstr => some (.vs s)
  | .pint => (pyInt? s).map .vi
  | .pfloat => (pyFloat? s).map .vf
  | .pbool =>
    match s with
    | "Y" => some (.vb true)
    | "N" => some (.vb false)
    | "" => some (.vb false)
    | _ => none

/-- Deduplication loop of `write_enums_to_file`: underscores are prepended
while the name is taken; the `count < 10` assert allows at most nine renames
before the collision is fatal. -/
def dedupLoop : Nat → List String → String → Except BErr String
  | 0, names, nm =>
    if names.contains nm then .error (.enumNameCollision nm) else .ok nm
  | k + 1, names, nm =>
    if names.contains nm then dedupLoop k names ("_" ++ nm) else .ok nm

/-- Derived enumerated type: its field name and its (symbolic name, converted
wire value) members. -/
structure EnumDef where
  name : String
  members : List (String × PVal)
deriving DecidableEq, Repr

/-- Member loop of `write_enums_to_file`: each `(wire value, description)`
pair yields a sanitized, deduplicated symbolic name bound to the
compile-time-converted wire value; a failed conversion aborts. -/
def write_enum_members : List (String × String) → PTy → List String →
    Except BErr (List (String × PVal))
  | [], _, _ => .ok []
  | (nm, tag) :: rest, ty, names =>
    match dedupLoop 9 names (valid_ident tag) with
    | .error e => .error e
    | .ok nmD =>
      match convCompile ty nm with
      | none => .error (.enumConvertError nm)
      | some v =>
        match write_enum_members rest ty (names ++ [nmD]) with
        | .error e => .error e
        | .ok ms => .ok ((nmD, v) :: ms)

/-- Translation of `write_enums_to_file`: every field with a non-empty enum
list contributes one enumerated type (timestamps may not be enumerated); the
returned name list is the source's `out`. -/
def write_enums_to_file : List (String × FieldMeta) →
    Except BErr (List EnumDef × List String)
  | [] => .ok ([], [])
  | (fk, fm) :: rest =>
    if fm.enums.length == 0 then write_enums_to_file rest
    else
      match lookupA TYP_MAP fm.type_name with
      | none => .error (.keyError fm.type_name)
      | some ty =>
        if fm.type_name == "UTCTIMESTAMP" then .error (.timestampEnum fk)
        else
          match write_enum_members fm.enums ty [] with
          | .error e => .error e
          | .ok ms =>
            match write_enums_to_file rest with
            | .error e => .error e
            | .ok (eds, out) => .ok (⟨fk, ms⟩ :: eds, fk :: out)

/-- Python dict insertion (`modules[msgtype] = ns_name`): a repeated key is
silently overwritten. -/
def dictInsert (m : List (String × List String)) (k : String) (v : List String) :
    List (String × List String) :=
  if (lookupA m k).isSome then updA m k (fun _ => v) else m ++ [(k, v)]

/-- File name the source derives from a class key (`class_name.lower()` plus
the extension; lower-casing is applied character-wise to keep the definition
kernel-reducible). -/
def fileNameOf (k : List String) : String :=
  ⟨(String.intercalate "." k).toList.map Char.toLower⟩ ++ ".py"

/-- Class loop of `write_to_files`: classes without a message type are
skipped; each remaining class is asserted to be top level, generated, and —
only on success — its file is written and its message type registered.  The
result carries the files written so far even when an error stops the loop. -/
def write_classes_loop : Nat → List (List String × ClassMeta) →
    List (List String × ClassMeta) → List (String × FieldMeta) →
    List String → List (String × List String) →
    List String × List (String × List String) × Option BErr
  | _, [], _, _, files, modules => (files, modules, none)
  | fuel, (class_name, class_meta) :: rest, map_classes, map_fields, files, modules =>
    match class_meta.msgtype with
    | none => write_classes_loop fuel rest map_classes map_fields files modules
    | some mt =>
      if class_meta.ns_name.length ≤ 1 then
        match generate_class_def fuel class_meta map_classes map_fields with
        | .error e => (files, modules, some e)
        | .ok _ =>
          write_classes_loop fuel rest map_classes map_fields
            (files ++ [fileNameOf class_name]) (dictInsert modules mt class_meta.ns_name)
      else (files, modules, some (.notTopLevel class_meta.ns_name))

/-- Outcome of `write_to_files`: the files actually written (in write order),
the message-type registry, and the first error if one stopped emission. -/
structure WriteOut where
  files : List String
  modules : List (String × List String)
  err : Option BErr
deriving DecidableEq, Repr

/-- Translation of `write_to_files`: one file per message class, then the
enum module, then the aggregating init module.  Each class file is written as
soon as its definition is generated, so an error later in the loop (or in the
enum pass) leaves the earlier files in place. -/
def write_to_files (fuel : Nat) (map_classes : List (List String × ClassMeta))
    (map_fields : List (String × FieldMeta)) : WriteOut :=
  match write_classes_loop fuel map_classes map_classes map_fields [] [] with
  | (files, modules, some e) => ⟨files, modules, some e⟩
  | (files, modules, none) =>
    match write_enums_to_file map_fields with
    | .error e => ⟨files, modules, some e⟩
    | .ok _ => ⟨files ++ ["_enums.py", "__init__.py"], modules, none⟩

/-- Translation of `mainfun`'s pipeline after the file is parsed: fields,
components and classes are traversed in that order, and only if all three
succeed does emission (which writes files) begin. -/
def compileModel (fuel : Nat) (doc : Doc) : List String × Option BErr :=
  match traverse_fields doc.fields with
  | .error e => ([], some e)
  | .ok map_fields =>
    match traverse_components fuel doc.components with
    | .error e => ([], some e)
    | .ok map_components =>
      match traverse_classes fuel doc.messages map_components with
      | .error e => ([], some e)
      | .ok map_classes =>
        let w := write_to_files fuel map_classes map_fields
        (w.files, w.err)

/-- Abstract tag-value view of one message or repeating-group entry: the
header message-type field (tag 35, written through `getHeader()`), the body
fields, and the appended repeating-group entries tagged by their count
field. -/
inductive WireMsg where
  | mk (msgtypeH : Option String) (fields : List (Int × String)) (groups : List (Int × WireMsg))

def WireMsg.msgtypeH : WireMsg → Option String
  | .mk h _ _ => h

def WireMsg.fields : WireMsg → List (Int × String)
  | .mk _ f _ => f

def WireMsg.groups : WireMsg → List (Int × WireMsg)
  | .mk _ _ g => g

/-- Boundary primitive `getFieldByTag`: the raw string at a tag, if set. -/
def getF? (m : WireMsg) (tag : Int) : Option String := lookupA m.fields tag

/-- Boundary primitive `isSetField`. -/
def isSetF (m : WireMsg) (tag : Int) : Bool := (getF? m tag).isSome

def setF (fs : List (Int × String)) (tag : Int) (v : String) : List (Int × String) :=
  if (lookupA fs tag).isSome then updA fs tag (fun _ => v) else fs ++ [(tag, v)]

/-- Boundary primitive `setFieldByTag` (`m.setField(...)`): overwrite or
append. -/
def WireMsg.setField : WireMsg → Int → String → WireMsg
  | .mk h fs gs, tag, v => .mk h (setF fs tag v) gs

/-- Boundary primitive `addGroup`: quickfix appends the entry and sets the
count field of the group's tag to the new total. -/
def addGroup (m : WireMsg) (tag : Int) (g : WireMsg) : WireMsg :=
  match m with
  | .mk h fs gs =>
    .mk h (setF fs tag (toString ((gs.filter (fun p => p.1 == tag)).length + 1)))
      (gs ++ [(tag, g)])

/-- Runtime failures of the generated decode/encode code: quickfix
`FieldNotFound` on a missing required tag, the conversion and `_bool` lookup
errors, the enum by-value lookup error, the `TypeError` raised inside
`get_group_by` (see `decodeItem`), and model-level shape errors for records
that do not match their class. -/
inductive DErr where
  | fieldNotFound (tag : Int)
  | convError (tag : Int)
  | boolKeyError (tag : Int)
  | unknownEnumValue (tag : Int)
  | groupCountBug (tag : Int)
  | keyError (name : String)
  | classNotFound (ns : List String)
  | shapeError (name : String)
  | fuelOut
deriving DecidableEq, Repr

/-- Decoded record value: a scalar field (absent optionals decode to `None`)
or a repeating group, i.e. a list of nested records. -/
inductive RVal where
  | scalar (v : Option PVal)
  | grp (gs : List (List (String × RVal)))

/-- Snake-case record attribute derived from an item name
(`valid_ident(camel_to_sname(item_name))`). -/
def snameOf (item_name : String) : String := valid_ident (camel_to_sname item_name)

/-- Runtime converter applied by the generated getters: `str(...)`,
`int(...)`, `float(...)`, or `_bool` (which accepts exactly `Y`/`N`). -/
def convDecode (ty : PTy) (tag : Int) (s : String) : Except DErr PVal :=
  match ty with
  | .pstr => .ok (.vs s)
  | .pint =>
    match pyInt? s with
    | some n => .ok (.vi n)
    | none => .error (.convError tag)
  | .pfloat =>
    match pyFloat? s with
    | some q => .ok (.vf q)
    | none => .error (.convError tag)
  | .pbool =>
    match s with
    | "Y" => .ok (.vb true)
    | "N" => .ok (.vb false)
    | _ => .error (.boolKeyError tag)

/-- Enum wrapping `_enums.X(v)` in a generated getter: a by-value lookup
among the materialized members, whose values are the compile-time-converted
wire literals; a value outside the set raises. -/
def enumLookup (fm : FieldMeta) (ty : PTy) (tag : Int) (v : PVal) : Except DErr PVal :=
  if fm.enums.any (fun e => convCompile ty e.1 == some v) then .ok v
  else .error (.unknownEnumValue tag)

/-- Getter value of one field item when its tag must be read:
`m.getField(n)` (quickfix raises `FieldNotFound` when the tag is absent),
then the primitive conversion, then — for an enumerated field — the enum
lookup. -/
def decodeFieldVal (fm : FieldMeta) (ty : PTy) (m : WireMsg) : Except DErr PVal :=
  match getF? m fm.number with
  | none => .error (.fieldNotFound fm.number)
  | some raw =>
    match convDecode ty fm.number raw with
    | .error e => .error e
    | .ok v => if fm.enums.length > 0 then enumLookup fm ty fm.number v else .ok v

/-- Semantics of one generated `from_raw` getter line.  A required field
reads unconditionally; an optional field is guarded by `isSetField` and
decodes to `None` when absent.  A group item is read through `get_group_by`
(src/build.py:516-526): when the count tag is set that function evaluates
`m.getField(id)` — `id` being the Python builtin, not the tag `idx` — which
raises `TypeError` (and its 4-argument `fix.Group(...)` call and missing
`int(...)` around the count are further slips on the same path); when the
count tag is unset it returns the empty list. -/
def decodeItem (map_fields : List (String × FieldMeta)) (p : String × Item)
    (m : WireMsg) : Except DErr (String × RVal) :=
  match p.2.kind with
  | .fieldK =>
    match lookupA map_fields p.1 with
    | none => .error (.keyError p.1)
    | some fm =>
      match lookupA TYP_MAP fm.type_name with
      | none => .error (.keyError fm.type_name)
      | some ty =>
        if p.2.required == "Y" then
          match decodeFieldVal fm ty m with
          | .error e => .error e
          | .ok v => .ok (snameOf p.1, .scalar (some v))
        else
          if isSetF m fm.number then
            match decodeFieldVal fm ty m with
            | .error e => .error e
            | .ok v => .ok (snameOf p.1, .scalar (some v))
          else .ok (snameOf p.1, .scalar none)
  | .groupK =>
    match lookupA map_fields p.1 with
    | none => .error (.keyError p.1)
    | some fm =>
      if isSetF m fm.number then .error (.groupCountBug fm.number)
      else .ok (snameOf p.1, .grp [])
  | .componentK => .error (.keyError p.1)

/-- Sequential getter lines of a generated `from_raw`: the first raised
exception aborts the whole decode. -/
def decodeItems (map_fields : List (String × FieldMeta)) :
    List (String × Item) → WireMsg → Except DErr (List (String × RVal))
  | [], _ => .ok []
  | p :: rest, m =>
    match decodeItem map_fields p m with
    | .error e => .error e
    | .ok v =>
      match decodeItems map_fields rest m with
      | .error e => .error e
      | .ok vs => .ok (v :: vs)

/-- Semantics of a generated `from_raw`: decode every item of the class in
declared order into the record. -/
def decodeClass (map_fields : List (String × FieldMeta)) (cls : ClassMeta)
    (m : WireMsg) : Except DErr (List (String × RVal)) :=
  decodeItems map_fields cls.items m

def padZeros (s : String) (k : Nat) : String :=
  ⟨List.replicate (k - s.length) '0'⟩ ++ s

def findPow10Aux (den : Nat) : Nat → Nat → Option Nat
  | 0, _ => none
  | fuel + 1, k => if 10 ^ k % den == 0 then some k else findPow10Aux den fuel (k + 1)

/-- Wire rendering of a float by the `fix.DoubleField` collaborator: a plain
decimal expansion when the rational has one (no claim inspects this text). -/
def pyFloatStr (q : Rat) : String :=
  let sgn := if q.num < 0 then "-" else ""
  match findPow10Aux q.den 40 0 with
  | some k =>
    let scaled := q.num.natAbs * (10 ^ k / q.den)
    if k == 0 then sgn ++ toString scaled ++ ".0"
    else
      sgn ++ toString (scaled / 10 ^ k) ++ "." ++ padZeros (toString (scaled % 10 ^ k)) k
  | none => sgn ++ toString q.num.natAbs ++ "/" ++ toString q.den

/-- Wire string written by a generated setter: `fix.StringField`,
`fix.IntField`, `fix.DoubleField` or `fix.BoolField` on the record value (an
enumerated field writes `self.x.value`, i.e. the same underlying value); a
value of the wrong carrier is a model-level shape error. -/
def encodeVal (ty : PTy) (name : String) (v : PVal) : Except DErr String :=
  match ty, v with
  | .pstr, .vs s => .ok s
  | .pint, .vi n => .ok (toString n)
  | .pfloat, .vf q => .ok (pyFloatStr q)
  | .pbool, .vb b => .ok (if b then "Y" else "N")
  | _, _ => .error (.shapeError name)

mutual

/-- Semantics of a generated `to_raw`: a top-level class starts from a fresh
message whose header carries the message type (the f-string renders an absent
type as the text `None`); a nested class starts from a fresh group; then the
setter lines run in declared item order. -/
def encodeClass : Nat → ClassMeta → List (List String × ClassMeta) →
    List (String × FieldMeta) → List (String × RVal) → Except DErr WireMsg
  | 0, _, _, _, _ => .error .fuelOut
  | fuel + 1, cls, map_classes, map_fields, r =>
    let m0 : WireMsg :=
      if cls.ns_name.length ≤ 1 then .mk (some (cls.msgtype.getD "None")) [] []
      else .mk none [] []
    encodeItems fuel cls.ns_name cls.items map_classes map_fields r m0

/-- Sequential setter lines of a generated `to_raw`: a required field writes
unconditionally (writing a `None` is a runtime error in the field
constructor), an optional field is written only when present and omitted
entirely otherwise, and a group item appends one encoded sub-entry per
record in order. -/
def encodeItems : Nat → List String → List (String × Item) →
    List (List String × ClassMeta) → List (String × FieldMeta) →
    List (String × RVal) → WireMsg → Except DErr WireMsg
  | 0, _, _, _, _, _, _ => .error .fuelOut
  | _ + 1, _, [], _, _, _, m => .ok m
  | fuel + 1, ns, p :: rest, map_classes, map_fields, r, m =>
    match p.2.kind with
    | .fieldK =>
      match lookupA map_fields p.1 with
      | none => .error (.keyError p.1)
      | some fm =>
        match lookupA TYP_MAP fm.type_name with
        | none => .error (.keyError fm.type_name)
        | some ty =>
          match lookupA r (snameOf p.1) with
          | none => .error (.shapeError p.1)
          | some (.grp _) => .error (.shapeError p.1)
          | some (.scalar ov) =>
            if p.2.required == "Y" then
              match ov with
              | none => .error (.shapeError p.1)
              | some v =>
                match encodeVal ty p.1 v with
                | .error e => .error e
                | .ok s =>
                  encodeItems fuel ns rest map_classes map_fields r (m.setField fm.number s)
            else
              match ov with
              | none => encodeItems fuel ns rest map_classes map_fields r m
              | some v =>
                match encodeVal ty p.1 v with
                | .error e => .error e
                | .ok s =>
                  encodeItems fuel ns rest map_classes map_fields r (m.setField fm.number s)
    | .groupK =>
      match lookupA map_fields p.1 with
      | none => .error (.keyError p.1)
      | some fm =>
        match lookupA map_classes (to_ns_name ns p.1) with
        | none => .error (.classNotFound (to_ns_name ns p.1))
        | some sub_cls =>
          match lookupA r (snameOf p.1) with
          | none => .error (.shapeError p.1)
          | some (.scalar _) => .error (.shapeError p.1)
          | some (.grp gs) =>
            match encodeGroups fuel sub_cls map_classes map_fields gs m fm.number with
            | .error e => .error e
            | .ok m' => encodeItems fuel ns rest map_classes map_fields r m'
    | .componentK => .error (.keyError p.1)

/-- Loop `for g in self.xs: m.addGroup(g.to_raw())`. -/
def encodeGroups : Nat → ClassMeta → List (List String × ClassMeta) →
    List (String × FieldMeta) → List (List (String × RVal)) → WireMsg → Int →
    Except DErr WireMsg
  | 0, _, _, _, _, _, _ => .error .fuelOut
  | _ + 1, _, _, _, [], m, _ => .ok m
  | fuel + 1, sub_cls, map_classes, map_fields, g :: gs, m, tag =>
    match encodeClass fuel sub_cls map_classes map_fields g with
    | .error e => .error e
    | .ok gm => encodeGroups fuel sub_cls map_classes map_fields gs (addGroup m tag gm) tag

end

/-- The `MESSAGES` registry of the emitted init module, derived from the
`modules` map of `write_to_files`: message-type code to (class, handler name
`on_<ClassName>`). -/
def mkMESSAGES (modules : List (String × List String)) :
    List (String × (List String × String)) :=
  modules.map (fun p => (p.1, (p.2, "on_" ++ from_ns_name p.2)))

/-- Outcome of the emitted `crack` function: which callable is invoked and
with which argument. -/
inductive CrackOut where
  | toHandler (name : String) (r : List (String × RVal))
  | toDefaultDecoded (r : List (String × RVal))
  | toDefaultRaw (m : WireMsg)

/-- Semantics of the emitted `crack` function: read the message-type code
from the header (quickfix raises when absent); on a registry hit decode the
message and pick the named handler when the caller's object has it, else the
default; on a miss pick the default with the raw undecoded message.  A decode
exception propagates before any callable is invoked. -/
def crack (map_fields : List (String × FieldMeta))
    (map_classes : List (List String × ClassMeta))
    (registry : List (String × (List String × String))) (hasattrs : List String)
    (message : WireMsg) : Except DErr CrackOut :=
  match message.msgtypeH with
  | none => .error (.fieldNotFound 35)
  | some code =>
    match lookupA registry code with
    | some (nsName, hname) =>
      match lookupA map_classes nsName with
      | none => .error (.classNotFound nsName)
      | some cls =>
        match decodeClass map_fields cls message with
        | .error e => .error e
        | .ok r =>
          if hasattrs.contains hname then .ok (.toHandler hname r)
          else .ok (.toDefaultDecoded r)
    | none => .ok (.toDefaultRaw message)

/-- Composition `decode(encode(record))` for one class, the round-trip the
generated code is supposed to satisfy. -/
def roundTrip (fuel : Nat) (map_classes : List (List String × ClassMeta))
    (map_fields : List (String × FieldMeta)) (cls : ClassMeta)
    (r : List (String × RVal)) : Except DErr (List (String × RVal)) :=
  match encodeClass fuel cls map_classes map_fields r with
  | .error e => .error e
  | .ok m => decodeClass map_fields cls m

/-- Key list of an association list. -/
def keysOf {κ ν : Type} (m : List (κ × ν)) : List κ := m.map Prod.fst

/-- Sort key `is_default` an item receives in `gen_items`: 0 exactly for a
required field item. -/
def dOfItem (i : Item) : Nat :=
  if i.kind == .fieldK && i.required == "Y" then 0 else 1

/-- Unsorted `s_fields` list `gen_items` produces on success, position by
position. -/
def genSpec (idx : Nat) : List (String × Item) → List GenField
  | [] => []
  | p :: rest => ⟨dOfItem p.2, idx, snameOf p.1, p.2⟩ :: genSpec (idx + 1) rest

/-- Example field registry: a plain string field, an enumerated char field,
a group-count field and a group-member field. -/
def exMF : List (String × FieldMeta) := [
  ("ClOrdID", ⟨11, "ClOrdID", "STRING", []⟩),
  ("Side", ⟨54, "Side", "CHAR", [("1", "Buy"), ("2", "Sell")]⟩),
  ("NoLegs", ⟨555, "NoLegs", "NUMINGROUP", []⟩),
  ("LegSymbol", ⟨600, "LegSymbol", "STRING", []⟩)]

/-- Example message class with a required field and an optional repeating
group. -/
def exOrder : ClassMeta :=
  ⟨["Order"], some "app", some "D",
    [("ClOrdID", ⟨"ClOrdID", "Y", .fieldK⟩), ("NoLegs", ⟨"NoLegs", "N", .groupK⟩)]⟩

/-- Nested group class of `exOrder`. -/
def exLeg : ClassMeta :=
  ⟨["Order", "NoLegs"], none, none, [("LegSymbol", ⟨"LegSymbol", "Y", .fieldK⟩)]⟩

def exMC : List (List String × ClassMeta) :=
  [(["Order"], exOrder), (["Order", "NoLegs"], exLeg)]

/-- Valid record for `exOrder` with one group entry. -/
def exRec : List (String × RVal) :=
  [("cl_ord_id", .scalar (some (.vs "abc"))),
   ("no_legs", .grp [[("leg_symbol", .scalar (some (.vs "X")))]])]

/-- Example class with two required fields, the second enumerated. -/
def exQuote : ClassMeta :=
  ⟨["Quote"], some "app", some "S",
    [("ClOrdID", ⟨"ClOrdID", "Y", .fieldK⟩), ("Side", ⟨"Side", "Y", .fieldK⟩)]⟩

/-- Same class but with the enumerated field optional. -/
def exQuoteOpt : ClassMeta :=
  ⟨["Quote"], some "app", some "S",
    [("ClOrdID", ⟨"ClOrdID", "Y", .fieldK⟩), ("Side", ⟨"Side", "N", .fieldK⟩)]⟩

/-- View carrying only tag 11. -/
def exViewNoSide : WireMsg := .mk (some "S") [(11, "abc")] []

/-- Two messages that share the message-type code `X`. -/
def exMsgsSameType : List MsgDef :=
  [⟨"Alpha", "app", "X", [.fieldE "ClOrdID" "Y"]⟩,
   ⟨"Beta", "app", "X", [.fieldE "ClOrdID" "Y"]⟩]

/-- Class map `traverse_classes` produces for `exMsgsSameType`. -/
def exMapSameType : List (List String × ClassMeta) :=
  [(["Alpha"], ⟨["Alpha"], some "app", some "X", [("ClOrdID", ⟨"ClOrdID", "Y", .fieldK⟩)]⟩),
   (["Beta"], ⟨["Beta"], some "app", some "X", [("ClOrdID", ⟨"ClOrdID", "Y", .fieldK⟩)]⟩)]

/-- Document whose second message declares an empty repeating group: the
first message is fine, the defect is only detected while emitting the
second. -/
def exDocEmptyGroup : Doc :=
  ⟨[⟨11, "ClOrdID", "STRING", []⟩, ⟨555, "NoLegs", "NUMINGROUP", []⟩],
   none,
   [⟨"Alpha", "app", "D", [.fieldE "ClOrdID" "Y"]⟩,
    ⟨"Beta", "app", "E", [.groupE "NoLegs" "Y" []]⟩]⟩

/-- Document with a duplicated field name, failing in the loader. -/
def exDocDupField : Doc :=
  ⟨[⟨11, "ClOrdID", "STRING", []⟩, ⟨12, "ClOrdID", "STRING", []⟩],
   none,
   [⟨"Alpha", "app", "D", [.fieldE "ClOrdID" "Y"]⟩]⟩

/-- Class whose single item is the all-lowercase reserved word `yield`. -/
def exYieldCls : ClassMeta :=
  ⟨["Quote"], some "app", some "S", [("yield", ⟨"yield", "Y", .fieldK⟩)]⟩

def exYieldMF : List (String × FieldMeta) := [("yield", ⟨236, "yield", "PERCENTAGE", []⟩)]

theorem lookupA_cons {κ ν : Type} [BEq κ] (a : κ) (b : ν) (m : List (κ × ν)) (k : κ) :
    lookupA ((a, b) :: m) k = if a == k then some b else lookupA m k := by
  cases h : a == k <;> simp [lookupA, List.find?, h]

theorem lookupA_eq_none {κ ν : Type} [BEq κ] [LawfulBEq κ] {m : List (κ × ν)} {k : κ} :
    lookupA m k = none ↔ k ∉ keysOf m := by
  induction m with
  | nil => simp [lookupA, keysOf]
  | cons p m ih =>
    obtain ⟨a, b⟩ := p
    rw [lookupA_cons]
    by_cases h : a = k
    · subst h; simp [keysOf]
    · simp [keysOf, h, ih, Ne.symm h, beq_false_of_ne h]

theorem lookupA_append {κ ν : Type} [BEq κ] (m1 m2 : List (κ × ν)) (k : κ) :
    lookupA (m1 ++ m2) k =
      match lookupA m1 k with
      | some v => some v
      | none => lookupA m2 k := by
  induction m1 with
  | nil => simp [lookupA]
  | cons p m ih =>
    obtain ⟨a, b⟩ := p
    rw [List.cons_append, lookupA_cons, lookupA_cons]
    cases h : a == k <;> simp [ih]

theorem keysOf_updA {κ ν : Type} [BEq κ] (m : List (κ × ν)) (k : κ) (f : ν → ν) :
    keysOf (updA m k f) = keysOf m := by
  induction m with
  | nil => rfl
  | cons p m ih =>
    obtain ⟨a, b⟩ := p
    cases h : a == k <;> simp [updA, keysOf, h] <;> simpa [updA, keysOf] using ih

theorem updA_cons {κ ν : Type} [BEq κ] (a : κ) (b : ν) (m : List (κ × ν)) (k : κ) (f : ν → ν) :
    updA ((a, b) :: m) k f = (if a == k then (a, f b) else (a, b)) :: updA m k f := rfl

theorem lookupA_updA_isSome {κ ν : Type} [BEq κ] (m : List (κ × ν)) (k k2 : κ) (f : ν → ν) :
    (lookupA (updA m k f) k2).isSome = (lookupA m k2).isSome := by
  induction m with
  | nil => rfl
  | cons p m ih =>
    obtain ⟨a, b⟩ := p
    rw [updA_cons]
    cases h : a == k
    · simp only [h, Bool.false_eq_true, if_false]
      rw [lookupA_cons, lookupA_cons]
      cases h2 : a == k2 <;> simp [h2, ih]
    · simp only [h, if_true]
      rw [lookupA_cons, lookupA_cons]
      cases h2 : a == k2 <;> simp [h2, ih]

theorem updA_append_fresh {κ ν : Type} [BEq κ] [LawfulBEq κ] {m : List (κ × ν)} {k : κ}
    (h : lookupA m k = none) (v v' : ν) :
    updA (m ++ [(k, v)]) k (fun _ => v') = m ++ [(k, v')] := by
  induction m with
  | nil => simp [updA]
  | cons p m ih =>
    obtain ⟨a, b⟩ := p
    rw [lookupA_cons] at h
    cases ha : a == k
    · rw [ha] at h
      simp only [if_neg, Bool.false_eq_true, not_false_eq_true] at h
      simp [updA, ha] at ih ⊢
      exact ih h
    · rw [ha] at h; simp at h

theorem nodup_append_key {κ ν : Type} [BEq κ] [LawfulBEq κ] {m : List (κ × ν)} {k : κ}
    (h : lookupA m k = none) (hm : (keysOf m).Nodup) (v : ν) :
    (keysOf (m ++ [(k, v)])).Nodup := by
  have hk : k ∉ keysOf m := lookupA_eq_none.mp h
  have : keysOf (m ++ [(k, v)]) = keysOf m ++ [k] := by simp [keysOf]
  rw [this, List.nodup_append]
  exact ⟨hm, List.nodup_singleton k, by simpa [List.disjoint_singleton] using hk⟩

/-- C1: round trip `decode(encode(record)) == record` fails on any record
with a non-empty repeating group: encoding `exRec` succeeds, but decoding
the encoded view raises inside `get_group_by`, which calls `m.getField(id)`
with the Python builtin `id` instead of the count tag `idx`
(src/build.py:520), so the claimed round trip is unachievable for groups. -/
theorem C1_roundtrip_group_decode_raises :
    exOk (encodeClass 9 exOrder exMC exMF exRec) = true ∧
    roundTrip 9 exMC exMF exOrder exRec = .error (.groupCountBug 555) :=
  ⟨rfl, rfl⟩

/-- C3 counterexample: two fields that share the number 1 under distinct
names are accepted by the field traversal, refuting the claim that building
the registry fails whenever two fields share a number. -/
theorem C3_counterexample :
    FieldElem.number ⟨1, "AccountA", "STRING", []⟩ =
      FieldElem.number ⟨1, "AccountB", "STRING", []⟩ ∧
    ("AccountA" = "AccountB" → False) ∧
    exOk (traverse_fields
      [⟨1, "AccountA", "STRING", []⟩, ⟨1, "AccountB", "STRING", []⟩]) = true := by
  refine ⟨rfl, ?_, rfl⟩
  decide

/-- C4 counterexample: two top-level messages declared with the same
message-type code `X` both survive expansion and emission — `write_to_files`
reports no error and writes both class files — refuting the claim that no
two message classes share a wire message-type code after emission. -/
theorem C4_counterexample :
    traverse_classes 9 exMsgsSameType [] = .ok exMapSameType ∧
    (lookupA exMapSameType ["Alpha"]).map ClassMeta.msgtype = some (some "X") ∧
    (lookupA exMapSameType ["Beta"]).map ClassMeta.msgtype = some (some "X") ∧
    (write_to_files 9 exMapSameType exMF).err = none ∧
    (write_to_files 9 exMapSameType exMF).files =
      ["alpha.py", "beta.py", "_enums.py", "__init__.py"] :=
  ⟨rfl, rfl, rfl, rfl, rfl⟩

/-- C5 counterexample: compiling `exDocEmptyGroup` hits the empty-group
compile error while emitting the second message, after the first message's
file has already been written — partial emitted output exists, refuting the
claim that either everything or nothing is emitted on a compile-time
error. -/
theorem C5_counterexample :
    (compileModel 9 exDocEmptyGroup).1 = ["alpha.py"] ∧
    (compileModel 9 exDocEmptyGroup).2 = some (.emptyGroup ["Beta", "NoLegs"]) :=
  ⟨rfl, rfl⟩

/-- C10 counterexample: the all-lowercase item name `yield` does not abort
generation — `valid_ident` prepends an underscore to the reserved word, so
the snake-case assert passes and the class generates successfully, refuting
the claim that every all-lowercase name aborts generation. -/
theorem C10_counterexample :
    (∀ c ∈ "yield".toList, c.isLower = true) ∧
    exOk (generate_class_def 9 exYieldCls [] exYieldMF) = true :=
  ⟨by decide, rfl⟩

theorem tf_rec_ok {e : FieldElem} {m m1 : List (String × FieldMeta)}
    (h : traverse_fields_rec e m = .ok m1) :
    lookupA m e.name = none ∧
      ∃ enums, m1 = m ++ [(e.name, ⟨e.number, e.name, e.typ, enums⟩)] := by
  unfold traverse_fields_rec at h
  split at h
  · exact absurd h (by simp)
  · split at h
    · exact absurd h (by simp)
    · split at h
      · exact absurd h (by simp)
      · rename_i hnotsome
        split at h
        · exact absurd h (by simp)
        · injection h with h
          refine ⟨?_, _, h.symm⟩
          cases hl : lookupA m e.name
          · rfl
          · rw [hl] at hnotsome; simp at hnotsome

theorem tf_loop_keys : ∀ (l : List FieldElem) (m m' : List (String × FieldMeta)),
    traverse_fields_loop l m = .ok m' →
    keysOf m' = keysOf m ++ l.map FieldElem.name ∧
      ((keysOf m).Nodup → (keysOf m').Nodup) := by
  intro l
  induction l with
  | nil =>
    intro m m' h
    injection h with h
    subst h
    simp
  | cons e rest ih =>
    intro m m' h
    unfold traverse_fields_loop at h
    cases hrec : traverse_fields_rec e m with
    | error err => rw [hrec] at h; exact absurd h (by simp)
    | ok m1 =>
      rw [hrec] at h
      obtain ⟨hnone, enums, hm1⟩ := tf_rec_ok hrec
      subst hm1
      obtain ⟨hk, hnd⟩ := ih _ _ h
      constructor
      · rw [hk]; simp [keysOf]
      · intro hm
        exact hnd (nodup_append_key hnone hm _)

theorem tf_loop_ok_of : ∀ (l : List FieldElem) (m : List (String × FieldMeta)),
    (keysOf m ++ l.map FieldElem.name).Nodup →
    (∀ e ∈ l, (e.name.toList.contains '.') = false ∧
      (lookupA TYP_MAP e.typ).isSome = true ∧ exOk (collectEnums e.children) = true) →
    ∃ m', traverse_fields_loop l m = .ok m' ∧ m'.length = m.length + l.length := by
  intro l
  induction l with
  | nil =>
    intro m _ _
    exact ⟨m, rfl, by simp⟩
  | cons e rest ih =>
    intro m hnd hwf
    obtain ⟨hdot, htyp, henum⟩ := hwf e (List.mem_cons_self _ _)
    have hnotmem : e.name ∉ keysOf m := by
      intro hmem
      rw [List.nodup_append] at hnd
      exact hnd.2.2 hmem (List.mem_cons_self _ _)
    have hnone : lookupA m e.name = none := lookupA_eq_none.mpr hnotmem
    obtain ⟨enums, hce⟩ : ∃ es, collectEnums e.children = .ok es := by
      cases hc : collectEnums e.children
      · rw [hc] at henum; exact absurd henum (by simp [exOk])
      · exact ⟨_, rfl⟩
    have hiN : (lookupA TYP_MAP e.typ).isNone = false := by
      cases hk : lookupA TYP_MAP e.typ
      · rw [hk] at htyp; exact absurd htyp (by simp)
      · rfl
    have hrec : traverse_fields_rec e m =
        .ok (m ++ [(e.name, ⟨e.number, e.name, e.typ, enums⟩)]) := by
      unfold traverse_fields_rec
      rw [hdot, hiN, hnone, hce]
      simp
    obtain ⟨m', hloop, hlen⟩ :=
      ih (m ++ [(e.name, ⟨e.number, e.name, e.typ, enums⟩)])
        (by simpa [keysOf, List.append_assoc] using hnd)
        (fun e' he' => hwf e' (List.mem_cons_of_mem _ he'))
    refine ⟨m', ?_, ?_⟩
    · unfold traverse_fields_loop
      rw [hrec]
      exact hloop
    · rw [hlen]; simp; omega

/-- C3 (amended): the field registry fails exactly on repeated field names —
on success the names are pairwise distinct (so a duplicated name always
aborts) and one `FieldMeta` is produced per field; conversely any input with
pairwise-distinct names, known types, dot-free names and well-formed enum
children succeeds with one `FieldMeta` per field.  Field numbers are not
checked: duplicate numbers do not cause failure (see the counterexample). -/
theorem C3_field_registry :
    (∀ (l : List FieldElem) (m' : List (String × FieldMeta)),
        traverse_fields l = .ok m' →
        (l.map FieldElem.name).Nodup ∧ m'.length = l.length) ∧
    (∀ l : List FieldElem,
        (l.map FieldElem.name).Nodup →
        (∀ e ∈ l, (e.name.toList.contains '.') = false ∧
          (lookupA TYP_MAP e.typ).isSome = true ∧ exOk (collectEnums e.children) = true) →
        ∃ m', traverse_fields l = .ok m' ∧ m'.length = l.length) := by
  constructor
  · intro l m' h
    obtain ⟨hk, hnd⟩ := tf_loop_keys l [] m' h
    have h2 := hnd (by simp [keysOf])
    rw [hk] at h2
    simp only [keysOf, List.nil_append] at hk h2
    refine ⟨by simpa [keysOf] using h2, ?_⟩
    have := congrArg List.length hk
    simpa using this
  · intro l hnd hwf
    have := tf_loop_ok_of l [] (by simpa [keysOf] using hnd) hwf
    simpa [traverse_fields] using this

/-- Witness for C3: a two-field list with distinct names compiles to a
registry with one entry per field. -/
theorem C3_field_registry_witness :
    ∃ m', traverse_fields [⟨11, "ClOrdID", "STRING", []⟩, ⟨54, "Side", "CHAR", []⟩] = .ok m' ∧
      m'.length = 2 :=
  C3_field_registry.2
    [⟨11, "ClOrdID", "STRING", []⟩, ⟨54, "Side", "CHAR", []⟩]
    (by decide) (by decide)

theorem gen_items_snake : ∀ (fuel : Nat) (ns : List String) (idx : Nat)
    (items : List (String × Item)) (mc : List (List String × ClassMeta))
    (mf : List (String × FieldMeta)) (out : List GenField × List EmittedClass),
    gen_items fuel ns idx items mc mf = .ok out →
    ∀ p ∈ items, valid_ident (camel_to_sname p.1) ≠ p.1 := by
  intro fuel
  induction fuel with
  | zero =>
    intro ns idx items mc mf out h
    exact absurd h (by simp [gen_items])
  | succ fuel ih =>
    intro ns idx items mc mf out h p hp
    match items, hp with
    | (item_name, item) :: rest, hp =>
      simp only [gen_items] at h
      split at h
      · exact absurd h (by simp)
      · rename_i hname
        split at h
        · exact absurd h (by simp)
        · rcases List.mem_cons.mp hp with hph | hpr
          · subst hph
            simpa using hname
          · split at h
            · -- field item
              split at h
              · exact absurd h (by simp)
              · split at h
                · exact absurd h (by simp)
                · split at h
                  · exact absurd h (by simp)
                  · split at h
                    · exact absurd h (by simp)
                    · rename_i heq
                      exact ih _ _ _ _ _ _ heq p hpr
            · -- group item
              split at h
              · exact absurd h (by simp)
              · split at h
                · exact absurd h (by simp)
                · split at h
                  · exact absurd h (by simp)
                  · split at h
                    · exact absurd h (by simp)
                    · rename_i heq
                      exact ih _ _ _ _ _ _ heq p hpr
            · exact absurd h (by simp)

/-- C10 (amended): generation has the implicit precondition that every
item's derived identifier `valid_ident(camel_to_sname(name))` differ from
the original name — any class containing an item whose name the derivation
leaves unchanged (in particular a plain all-lowercase name that is neither
the reserved word `yield` nor digit-leading) aborts `generate_class_def`
with the assertion, so such dictionaries cannot be compiled. -/
theorem C10_snake_case_precondition :
    ∀ (fuel : Nat) (cls : ClassMeta) (mc : List (List String × ClassMeta))
      (mf : List (String × FieldMeta)) (ec : EmittedClass),
    generate_class_def fuel cls mc mf = .ok ec →
    ∀ p ∈ cls.items, valid_ident (camel_to_sname p.1) ≠ p.1 := by
  intro fuel cls mc mf ec h
  cases fuel with
  | zero => exact absurd h (by simp [generate_class_def])
  | succ fuel =>
    unfold generate_class_def at h
    split at h
    · exact absurd h (by simp)
    · split at h
      · exact absurd h (by simp)
      · rename_i heq
        exact gen_items_snake fuel cls.ns_name 0 cls.items mc mf _ heq

/-- Witness for C10: applied to the concrete class `exOrder`, whose
generation succeeds, giving that the name `ClOrdID` is genuinely renamed. -/
theorem C10_snake_case_witness :
    valid_ident (camel_to_sname "ClOrdID") ≠ "ClOrdID" := by
  cases hg : generate_class_def 9 exOrder exMC exMF with
  | error e =>
    have hok : exOk (generate_class_def 9 exOrder exMC exMF) = true := rfl
    rw [hg] at hok
    exact absurd hok (by simp [exOk])
  | ok ec =>
    exact C10_snake_case_precondition 9 exOrder exMC exMF ec hg
      ("ClOrdID", ⟨"ClOrdID", "Y", .fieldK⟩) (by decide)

/-- C5 (amended): dictionary-load and expansion errors are fail-fast and
produce no output — whichever of the three traversal stages fails, the
pipeline writes no file and reports that error.  (Errors detected during
emission itself behave differently; see the counterexample.) -/
theorem C5_traversal_errors_no_output :
    ∀ (fuel : Nat) (doc : Doc),
      (∀ e, traverse_fields doc.fields = .error e → compileModel fuel doc = ([], some e)) ∧
      (∀ mf e, traverse_fields doc.fields = .ok mf →
        traverse_components fuel doc.components = .error e →
        compileModel fuel doc = ([], some e)) ∧
      (∀ mf mk e, traverse_fields doc.fields = .ok mf →
        traverse_components fuel doc.components = .ok mk →
        traverse_classes fuel doc.messages mk = .error e →
        compileModel fuel doc = ([], some e)) := by
  intro fuel doc
  refine ⟨?_, ?_, ?_⟩
  · intro e h
    simp [compileModel, h]
  · intro mf e h1 h2
    simp [compileModel, h1, h2]
  · intro mf mk e h1 h2 h3
    simp [compileModel, h1, h2, h3]

/-- Witness for C5: a document with a duplicated field name fails in the
loader with no file written. -/
theorem C5_traversal_errors_witness :
    compileModel 9 exDocDupField = ([], some (.duplicateField "ClOrdID")) :=
  (C5_traversal_errors_no_output 9 exDocDupField).1 (.duplicateField "ClOrdID") rfl

/-- C9: the emitted crack function reads the message-type code; on a
registry hit it decodes the message and invokes the registered named handler
when the caller-supplied object has it, else the default handler (with the
decoded message); on a registry miss it invokes the default handler with the
undecoded message. -/
theorem C9_crack_dispatch :
    (∀ mf mc registry hasattrs message code ns hname cls r,
      WireMsg.msgtypeH message = some code →
      lookupA registry code = some (ns, hname) →
      lookupA mc ns = some cls →
      decodeClass mf cls message = .ok r →
      hasattrs.contains hname = true →
      crack mf mc registry hasattrs message = .ok (.toHandler hname r)) ∧
    (∀ mf mc registry hasattrs message code ns hname cls r,
      WireMsg.msgtypeH message = some code →
      lookupA registry code = some (ns, hname) →
      lookupA mc ns = some cls →
      decodeClass mf cls message = .ok r →
      hasattrs.contains hname = false →
      crack mf mc registry hasattrs message = .ok (.toDefaultDecoded r)) ∧
    (∀ mf mc registry hasattrs message code,
      WireMsg.msgtypeH message = some code →
      lookupA registry code = none →
      crack mf mc registry hasattrs message = .ok (.toDefaultRaw message)) := by
  refine ⟨?_, ?_, ?_⟩
  · intro mf mc registry hasattrs message code ns hname cls r h1 h2 h3 h4 h5
    simp [crack, h1, h2, h3, h4, h5]
    exact List.mem_of_elem_eq_true h5
  · intro mf mc registry hasattrs message code ns hname cls r h1 h2 h3 h4 h5
    have h5' : hname ∉ hasattrs := by
      intro hmem
      have he := List.elem_eq_true_of_mem hmem
      rw [show hasattrs.elem hname = hasattrs.contains hname from rfl, h5] at he
      cases he
    simp [crack, h1, h2, h3, h4, h5']
  · intro mf mc registry hasattrs message code h1 h2
    simp [crack, h1, h2]

/-- Witness for C9: cracking a `D` message against the registry derived from
`modules` dispatches to the handler `on_Order` with the decoded record. -/
theorem C9_crack_dispatch_witness :
    crack exMF exMC (mkMESSAGES [("D", ["Order"])]) ["on_Order"]
        (.mk (some "D") [(11, "abc")] []) =
      .ok (.toHandler "on_Order"
        [("cl_ord_id", .scalar (some (.vs "abc"))), ("no_legs", .grp [])]) :=
  C9_crack_dispatch.1 exMF exMC (mkMESSAGES [("D", ["Order"])]) ["on_Order"]
    (.mk (some "D") [(11, "abc")] []) "D" ["Order"] "on_Order" exOrder
    [("cl_ord_id", .scalar (some (.vs "abc"))), ("no_legs", .grp [])]
    rfl rfl rfl rfl rfl

theorem decodeItems_append (mf : List (String × FieldMeta)) (l1 l2 : List (String × Item))
    (m : WireMsg) :
    decodeItems mf (l1 ++ l2) m =
      match decodeItems mf l1 m with
      | .error e => .error e
      | .ok v1 =>
        match decodeItems mf l2 m with
        | .error e => .error e
        | .ok v2 => .ok (v1 ++ v2) := by
  induction l1 with
  | nil =>
    cases h : decodeItems mf l2 m <;> simp [decodeItems, h]
  | cons p l1 ih =>
    cases hd : decodeItem mf p m
    · simp [decodeItems, hd]
    · simp only [List.cons_append, decodeItems, hd, List.append_eq]
      rw [ih]
      cases h1 : decodeItems mf l1 m <;> cases h2 : decodeItems mf l2 m <;> simp

/-- C6: for a field item of an emitted class, a view missing the field's tag
makes the generated decode fail with the missing-required-field error when
the item is required (provided the items before it decode), and decode the
field as absent (`None`) without error when the item is optional (provided
the remaining items decode). -/
theorem C6_required_vs_optional :
    (∀ (mf : List (String × FieldMeta)) (cls : ClassMeta) (m : WireMsg)
        (pre : List (String × Item)) (nm : String) (it : Item)
        (post : List (String × Item)) (fm : FieldMeta) (ty : PTy)
        (rp : List (String × RVal)),
      cls.items = pre ++ (nm, it) :: post →
      it.kind = .fieldK →
      it.required = "Y" →
      lookupA mf nm = some fm →
      lookupA TYP_MAP fm.type_name = some ty →
      getF? m fm.number = none →
      decodeItems mf pre m = .ok rp →
      decodeClass mf cls m = .error (.fieldNotFound fm.number)) ∧
    (∀ (mf : List (String × FieldMeta)) (cls : ClassMeta) (m : WireMsg)
        (pre : List (String × Item)) (nm : String) (it : Item)
        (post : List (String × Item)) (fm : FieldMeta) (ty : PTy)
        (rp rq : List (String × RVal)),
      cls.items = pre ++ (nm, it) :: post →
      it.kind = .fieldK →
      it.required ≠ "Y" →
      lookupA mf nm = some fm →
      lookupA TYP_MAP fm.type_name = some ty →
      getF? m fm.number = none →
      decodeItems mf pre m = .ok rp →
      decodeItems mf post m = .ok rq →
      decodeClass mf cls m = .ok (rp ++ (snameOf nm, .scalar none) :: rq)) := by
  constructor
  · intro mf cls m pre nm it post fm ty rp hitems hk hreq hmf hty hget hpre
    have hdi : decodeItem mf (nm, it) m = .error (.fieldNotFound fm.number) := by
      simp [decodeItem, hk, hmf, hty, hreq, decodeFieldVal, hget]
    unfold decodeClass
    rw [hitems, decodeItems_append, hpre]
    simp [decodeItems, hdi]
  · intro mf cls m pre nm it post fm ty rp rq hitems hk hreq hmf hty hget hpre hpost
    have hdi : decodeItem mf (nm, it) m = .ok (snameOf nm, .scalar none) := by
      simp [decodeItem, hk, hmf, hty, hreq, isSetF, hget]
    unfold decodeClass
    rw [hitems, decodeItems_append, hpre]
    simp [decodeItems, hdi, hpost]

/-- Witness for C6: the view carrying only tag 11 fails with
missing-required-field 54 for the class requiring `Side`, and decodes with
`side = None` for the class where `Side` is optional. -/
theorem C6_required_vs_optional_witness :
    decodeClass exMF exQuote exViewNoSide = .error (.fieldNotFound 54) ∧
    decodeClass exMF exQuoteOpt exViewNoSide =
      .ok [("cl_ord_id", .scalar (some (.vs "abc"))), ("side", .scalar none)] := by
  constructor
  · exact C6_required_vs_optional.1 exMF exQuote exViewNoSide
      [("ClOrdID", ⟨"ClOrdID", "Y", .fieldK⟩)] "Side" ⟨"Side", "Y", .fieldK⟩ []
      ⟨54, "Side", "CHAR", [("1", "Buy"), ("2", "Sell")]⟩ .pstr
      [("cl_ord_id", .scalar (some (.vs "abc")))]
      rfl rfl rfl rfl rfl rfl rfl
  · exact C6_required_vs_optional.2 exMF exQuoteOpt exViewNoSide
      [("ClOrdID", ⟨"ClOrdID", "Y", .fieldK⟩)] "Side" ⟨"Side", "N", .fieldK⟩ []
      ⟨54, "Side", "CHAR", [("1", "Buy"), ("2", "Sell")]⟩ .pstr
      [("cl_ord_id", .scalar (some (.vs "abc")))] []
      rfl rfl (by decide) rfl rfl rfl rfl rfl

theorem wem_ok : ∀ (es : List (String × String)) (ty : PTy) (names : List String)
    (ms : List (String × PVal)),
    write_enum_members es ty names = .ok ms →
    ∀ e ∈ es, ∃ v, convCompile ty e.1 = some v := by
  intro es
  induction es with
  | nil =>
    intro ty names ms h e he
    cases he
  | cons p rest ih =>
    intro ty names ms h e he
    obtain ⟨nm, tag⟩ := p
    unfold write_enum_members at h
    split at h
    · exact absurd h (by simp)
    · split at h
      · exact absurd h (by simp)
      · rename_i hconv
        split at h
        · exact absurd h (by simp)
        · rcases List.mem_cons.mp he with hph | hpr
          · subst hph
            exact ⟨_, hconv⟩
          · rename_i hrest
            exact ih _ _ _ hrest e hpr

theorem wetf_ok : ∀ (l : List (String × FieldMeta)) (out : List EnumDef × List String),
    write_enums_to_file l = .ok out →
    ∀ p ∈ l, p.2.enums ≠ [] →
      ∃ ty, lookupA TYP_MAP p.2.type_name = some ty ∧
        ∀ e ∈ p.2.enums, ∃ v, convCompile ty e.1 = some v := by
  intro l
  induction l with
  | nil =>
    intro out h p hp
    cases hp
  | cons q rest ih =>
    intro out h p hp hne
    obtain ⟨fk, fm⟩ := q
    unfold write_enums_to_file at h
    split at h
    · rcases List.mem_cons.mp hp with hph | hpr
      · subst hph
        rename_i hlen
        exact absurd (List.length_eq_zero.mp (by simpa using hlen)) hne
      · exact ih _ h p hpr hne
    · split at h
      · exact absurd h (by simp)
      · rename_i ty hty
        split at h
        · exact absurd h (by simp)
        · split at h
          · exact absurd h (by simp)
          · rename_i ms hmem
            split at h
            · exact absurd h (by simp)
            · rename_i eds outv hrest
              rcases List.mem_cons.mp hp with hph | hpr
              · subst hph
                exact ⟨ty, hty, wem_ok _ _ _ _ hmem⟩
              · exact ih _ hrest p hpr hne

/-- C7: compile-time enum completeness — whenever the enum materializer
succeeds, every declared wire literal of every enumerated field converts
under the field's primitive type (so a failing literal aborts generation) —
and at decode time a wire value that converts but lies outside the declared
enum set makes the generated decode fail with the unknown-enum-value
error. -/
theorem C7_enum_compile_and_decode :
    (∀ (l : List (String × FieldMeta)) (out : List EnumDef × List String),
      write_enums_to_file l = .ok out →
      ∀ p ∈ l, p.2.enums ≠ [] →
        ∃ ty, lookupA TYP_MAP p.2.type_name = some ty ∧
          ∀ e ∈ p.2.enums, ∃ v, convCompile ty e.1 = some v) ∧
    (∀ (mf : List (String × FieldMeta)) (cls : ClassMeta) (m : WireMsg)
        (pre : List (String × Item)) (nm : String) (it : Item)
        (post : List (String × Item)) (fm : FieldMeta) (ty : PTy)
        (rp : List (String × RVal)) (raw : String) (v : PVal),
      cls.items = pre ++ (nm, it) :: post →
      it.kind = .fieldK →
      it.required = "Y" →
      lookupA mf nm = some fm →
      lookupA TYP_MAP fm.type_name = some ty →
      fm.enums ≠ [] →
      getF? m fm.number = some raw →
      convDecode ty fm.number raw = .ok v →
      (∀ e ∈ fm.enums, convCompile ty e.1 ≠ some v) →
      decodeItems mf pre m = .ok rp →
      decodeClass mf cls m = .error (.unknownEnumValue fm.number)) := by
  constructor
  · exact wetf_ok
  · intro mf cls m pre nm it post fm ty rp raw v hitems hk hreq hmf hty hne hget hconv
      hout hpre
    have hany : fm.enums.any (fun e => convCompile ty e.1 == some v) = false := by
      rw [List.any_eq_false]
      intro e he
      simpa using hout e he
    have hlen : 0 < fm.enums.length := List.length_pos.mpr hne
    have hdi : decodeItem mf (nm, it) m = .error (.unknownEnumValue fm.number) := by
      simp [decodeItem, hk, hmf, hty, hreq, decodeFieldVal, hget, hconv, enumLookup,
        hany, hlen]
    unfold decodeClass
    rw [hitems, decodeItems_append, hpre]
    simp [decodeItems, hdi]

/-- Witness for C7: the enum module for `exMF` materializes (its literals
`1`, `2` convert), and decoding the wire value `9` for `Side` fails with the
unknown-enum-value error. -/
theorem C7_enum_witness :
    (∃ v, convCompile .pstr "1" = some v) ∧
    decodeClass exMF exQuote (.mk (some "S") [(11, "abc"), (54, "9")] []) =
      .error (.unknownEnumValue 54) := by
  constructor
  · have h := C7_enum_compile_and_decode.1 exMF ([⟨"Side", [("Buy", .vs "1"), ("Sell", .vs "2")]⟩], ["Side"]) rfl
      ("Side", ⟨54, "Side", "CHAR", [("1", "Buy"), ("2", "Sell")]⟩) (by decide) (by decide)
    obtain ⟨ty, hty, hall⟩ := h
    have : ty = PTy.pstr := by
      have : some ty = some PTy.pstr := by rw [← hty]; rfl
      exact Option.some.inj this
    subst this
    exact hall ("1", "Buy") (by decide)
  · exact C7_enum_compile_and_decode.2 exMF exQuote (.mk (some "S") [(11, "abc"), (54, "9")] [])
      [("ClOrdID", ⟨"ClOrdID", "Y", .fieldK⟩)] "Side" ⟨"Side", "Y", .fieldK⟩ []
      ⟨54, "Side", "CHAR", [("1", "Buy"), ("2", "Sell")]⟩ .pstr
      [("cl_ord_id", .scalar (some (.vs "abc")))] "9" (.vs "9")
      rfl rfl rfl rfl rfl (by decide) rfl rfl (by decide) rfl

theorem gen_items_spec : ∀ (fuel : Nat) (ns : List String) (idx : Nat)
    (items : List (String × Item)) (mc : List (List String × ClassMeta))
    (mf : List (String × FieldMeta)) (gfs : List GenField) (subs : List EmittedClass),
    gen_items fuel ns idx items mc mf = .ok (gfs, subs) →
    gfs = genSpec idx items := by
  intro fuel
  induction fuel with
  | zero =>
    intro ns idx items mc mf gfs subs h
    exact absurd h (by simp [gen_items])
  | succ fuel ih =>
    intro ns idx items mc mf gfs subs h
    match items with
    | [] =>
      simp only [gen_items] at h
      injection h with h
      injection h with h1 h2
      rw [← h1]
      rfl
    | (item_name, item) :: rest =>
      simp only [gen_items] at h
      split at h
      · exact absurd h (by simp)
      · split at h
        · exact absurd h (by simp)
        · split at h
          · -- field item
            rename_i hkind
            split at h
            · exact absurd h (by simp)
            · split at h
              · exact absurd h (by simp)
              · split at h
                · exact absurd h (by simp)
                · split at h
                  · exact absurd h (by simp)
                  · rename_i gfs' subs' heq
                    injection h with h
                    injection h with h1 h2
                    rw [← h1, ih _ _ _ _ _ _ _ heq]
                    simp only [genSpec, snameOf]
                    congr 1
                    have : dOfItem item = if (item.required != "Y") = true then 1 else 0 := by
                      simp only [dOfItem, hkind]
                      by_cases hr : item.required = "Y"
                      · simp [hr]
                      · simp [hr]
                    rw [this]
          · -- group item
            rename_i hkind
            split at h
            · exact absurd h (by simp)
            · split at h
              · exact absurd h (by simp)
              · split at h
                · exact absurd h (by simp)
                · split at h
                  · exact absurd h (by simp)
                  · rename_i gfs' subs' heq
                    injection h with h
                    injection h with h1 h2
                    rw [← h1, ih _ _ _ _ _ _ _ heq]
                    simp only [genSpec, snameOf]
                    congr 1
                    simp [dOfItem, hkind]
          · exact absurd h (by simp)

theorem genSpec_idx_le : ∀ (items : List (String × Item)) (idx : Nat),
    ∀ g ∈ genSpec idx items, idx ≤ g.idx := by
  intro items
  induction items with
  | nil => intro idx g hg; cases hg
  | cons p rest ih =>
    intro idx g hg
    rcases List.mem_cons.mp hg with h | h
    · subst h; exact Nat.le_refl _
    · exact Nat.le_of_succ_le (ih (idx + 1) g h)

theorem genSpec_pairwise : ∀ (items : List (String × Item)) (idx : Nat),
    (genSpec idx items).Pairwise (fun a b => a.idx < b.idx) := by
  intro items
  induction items with
  | nil => intro idx; exact List.Pairwise.nil
  | cons p rest ih =>
    intro idx
    refine List.pairwise_cons.mpr ⟨?_, ih (idx + 1)⟩
    intro g hg
    exact Nat.lt_of_lt_of_le (Nat.lt_succ_self idx) (genSpec_idx_le rest (idx + 1) g hg)

theorem genSpec_default01 : ∀ (items : List (String × Item)) (idx : Nat),
    ∀ g ∈ genSpec idx items, g.isDefault = 0 ∨ g.isDefault = 1 := by
  intro items
  induction items with
  | nil => intro idx g hg; cases hg
  | cons p rest ih =>
    intro idx g hg
    rcases List.mem_cons.mp hg with h | h
    · subst h
      simp only [dOfItem]
      split
      · exact Or.inl rfl
      · exact Or.inr rfl
    · exact ih (idx + 1) g h

theorem insertSorted_all_lt (x : GenField) (l : List GenField)
    (h : ∀ a ∈ l, genLt x a = true) : insertSorted x l = x :: l := by
  cases l with
  | nil => rfl
  | cons a rest => simp [insertSorted, h a (List.mem_cons_self _ _)]

theorem insertSorted_skip (x : GenField) (A B : List GenField)
    (h : ∀ a ∈ A, genLt x a = false) :
    insertSorted x (A ++ B) = A ++ insertSorted x B := by
  induction A with
  | nil => rfl
  | cons a A ih =>
    simp only [List.cons_append, insertSorted, h a (List.mem_cons_self _ _),
      Bool.false_eq_true, if_false, List.append_eq]
    exact congrArg (a :: ·) (ih (fun a' ha' => h a' (List.mem_cons_of_mem _ ha')))

theorem isort_buckets : ∀ l : List GenField,
    (∀ g ∈ l, g.isDefault = 0 ∨ g.isDefault = 1) →
    l.Pairwise (fun a b => a.idx < b.idx) →
    isort l = l.filter (fun g => g.isDefault == 0) ++
      l.filter (fun g => !(g.isDefault == 0)) := by
  intro l
  induction l with
  | nil => intro _ _; rfl
  | cons x l ih =>
    intro hd hp
    have hlt : ∀ g ∈ l, x.idx < g.idx := fun g hg => (List.pairwise_cons.mp hp).1 g hg
    have ihr := ih (fun g hg => hd g (List.mem_cons_of_mem _ hg)) (List.pairwise_cons.mp hp).2
    simp only [isort]
    rw [ihr]
    rcases hd x (List.mem_cons_self _ _) with h0 | h1
    · have hfront : ∀ a ∈ l.filter (fun g => g.isDefault == 0) ++
          l.filter (fun g => !(g.isDefault == 0)), genLt x a = true := by
        intro a ha
        have hal : a ∈ l := by
          rcases List.mem_append.mp ha with h | h
          exacts [List.mem_of_mem_filter h, List.mem_of_mem_filter h]
        rcases hd a (List.mem_cons_of_mem _ hal) with ha0 | ha1
        · simp [genLt, h0, ha0, hlt a hal]
        · simp [genLt, h0, ha1]
      rw [insertSorted_all_lt _ _ hfront]
      simp [List.filter_cons, h0]
    · have hskip : ∀ a ∈ l.filter (fun g => g.isDefault == 0), genLt x a = false := by
        intro a ha
        have ha0 : (a.isDefault == 0) = true := (List.mem_filter.mp ha).2
        simp only [beq_iff_eq] at ha0
        simp [genLt, h1, ha0]
      rw [insertSorted_skip _ _ _ hskip]
      have hB : ∀ a ∈ l.filter (fun g => !(g.isDefault == 0)), genLt x a = true := by
        intro a ha
        have hal := (List.mem_filter.mp ha).1
        have hnot := (List.mem_filter.mp ha).2
        rcases hd a (List.mem_cons_of_mem _ hal) with ha0 | ha1
        · rw [ha0] at hnot; simp at hnot
        · simp [genLt, h1, ha1, hlt a hal]
      rw [insertSorted_all_lt _ _ hB]
      simp [List.filter_cons, h1]

theorem genSpec_filter0 : ∀ (items : List (String × Item)) (idx : Nat),
    ((genSpec idx items).filter (fun g => g.isDefault == 0)).map GenField.item =
      (items.map Prod.snd).filter (fun i => i.kind == .fieldK && i.required == "Y") := by
  intro items
  induction items with
  | nil => intro idx; rfl
  | cons p rest ih =>
    intro idx
    cases hk : p.2.kind <;> cases hr : p.2.required == "Y" <;>
      simp [genSpec, dOfItem, List.filter_cons, hk, hr, ih (idx + 1)]

theorem genSpec_filter1 : ∀ (items : List (String × Item)) (idx : Nat),
    ((genSpec idx items).filter (fun g => !(g.isDefault == 0))).map GenField.item =
      (items.map Prod.snd).filter (fun i => !(i.kind == .fieldK && i.required == "Y")) := by
  intro items
  induction items with
  | nil => intro idx; rfl
  | cons p rest ih =>
    intro idx
    cases hk : p.2.kind <;> cases hr : p.2.required == "Y" <;>
      simp [genSpec, dOfItem, List.filter_cons, hk, hr, ih (idx + 1)]

/-- C8: in every emitted record definition the fields are the class's items
with the required (field-kind, `required == "Y"`) bucket moved to the front
and, inside each bucket, the original insertion order preserved. -/
theorem C8_emitted_field_order : ∀ (fuel : Nat) (cls : ClassMeta)
    (mc : List (List String × ClassMeta)) (mf : List (String × FieldMeta))
    (ec : EmittedClass),
    generate_class_def fuel cls mc mf = .ok ec →
    ec.s_fields.map GenField.item =
      (cls.items.map Prod.snd).filter (fun i => i.kind == .fieldK && i.required == "Y") ++
      (cls.items.map Prod.snd).filter (fun i => !(i.kind == .fieldK && i.required == "Y")) := by
  intro fuel cls mc mf ec h
  cases fuel with
  | zero => exact absurd h (by simp [generate_class_def])
  | succ fuel =>
    unfold generate_class_def at h
    split at h
    · exact absurd h (by simp)
    · split at h
      · exact absurd h (by simp)
      · rename_i gfs subs heq
        injection h with h
        rw [← h]
        have hspec := gen_items_spec fuel cls.ns_name 0 cls.items mc mf gfs subs heq
        subst hspec
        show (isort (genSpec 0 cls.items)).map GenField.item = _
        rw [isort_buckets (genSpec 0 cls.items) (genSpec_default01 cls.items 0)
          (genSpec_pairwise cls.items 0)]
        rw [List.map_append, genSpec_filter0, genSpec_filter1]

/-- Witness for C8: the class with a required then an optional field emits
them in that order (required bucket first, insertion order inside). -/
theorem C8_emitted_field_order_witness :
    exOk (generate_class_def 9 exQuoteOpt [] exMF) = true ∧
    (match generate_class_def 9 exQuoteOpt [] exMF with
     | .ok ec => ec.s_fields.map GenField.item
     | .error _ => []) =
      [⟨"ClOrdID", "Y", .fieldK⟩, ⟨"Side", "N", .fieldK⟩] := by
  constructor
  · rfl
  · cases hg : generate_class_def 9 exQuoteOpt [] exMF with
    | error e =>
      have hok : exOk (generate_class_def 9 exQuoteOpt [] exMF) = true := rfl
      rw [hg] at hok
      exact absurd hok (by simp [exOk])
    | ok ec =>
      have h := C8_emitted_field_order 9 exQuoteOpt [] exMF ec hg
      simp only [h]
      decide

theorem expand_nd : ∀ (fuel : Nat) (cls : ClassMeta) (gocNs : List String)
    (items : List Item) (mc : List (List String × ClassMeta))
    (mk : List (List String × ComponentMeta)) (nsArg : List String)
    (cls' : ClassMeta) (mc' : List (List String × ClassMeta)),
    expand_component_rec fuel cls gocNs items mc mk nsArg = .ok (cls', mc') →
    (keysOf mc).Nodup → (keysOf mc').Nodup := by
  intro fuel
  induction fuel with
  | zero =>
    intro cls gocNs items mc mk nsArg cls' mc' h
    exact absurd h (by simp [expand_component_rec])
  | succ fuel ih =>
    intro cls gocNs items mc mk nsArg cls' mc' h hnd
    match items with
    | [] =>
      simp only [expand_component_rec] at h
      injection h with h
      injection h with h1 h2
      rw [← h2]
      exact hnd
    | item :: rest =>
      simp only [expand_component_rec] at h
      split at h
      · -- field kind
        split at h
        · exact absurd h (by simp)
        · exact ih _ _ _ _ _ _ _ _ h hnd
      · -- group kind
        split at h
        · exact absurd h (by simp)
        · split at h
          · exact absurd h (by simp)
          · rename_i hmcSome
            have hmcNone : lookupA mc (to_ns_name cls.ns_name item.name) = none := by
              cases hx : lookupA mc (to_ns_name cls.ns_name item.name)
              · rfl
              · rw [hx] at hmcSome; simp at hmcSome
            split at h
            · exact absurd h (by simp)
            · split at h
              · exact absurd h (by simp)
              · rename_i sub1 mc2 hinner
                have hnd1 := nodup_append_key hmcNone hnd
                  (⟨to_ns_name cls.ns_name item.name, none, none, []⟩ : ClassMeta)
                have hnd2 := ih _ _ _ _ _ _ _ _ hinner hnd1
                have hnd3 : (keysOf (updA mc2 (to_ns_name cls.ns_name item.name)
                    (fun _ => sub1))).Nodup := by
                  rw [keysOf_updA]
                  exact hnd2
                exact ih _ _ _ _ _ _ _ _ h hnd3
      · -- component kind
        split at h
        · exact absurd h (by simp)
        · split at h
          · exact absurd h (by simp)
          · rename_i cls2 mc2 hinner
            exact ih _ _ _ _ _ _ _ _ h (ih _ _ _ _ _ _ _ _ hinner hnd)

theorem traverse_nd : ∀ fuel : Nat,
    (∀ (ns : List String) (name : String) (mcat mtyp : Option String)
        (children : List MElem) (mc : List (List String × ClassMeta))
        (mk : List (List String × ComponentMeta)) (mc' : List (List String × ClassMeta)),
      traverse_classes_rec fuel ns name mcat mtyp children mc mk = .ok mc' →
      (keysOf mc).Nodup → (keysOf mc').Nodup) ∧
    (∀ (cls : ClassMeta) (children : List MElem) (mc : List (List String × ClassMeta))
        (mk : List (List String × ComponentMeta)) (cls' : ClassMeta)
        (mc' : List (List String × ClassMeta)),
      traverse_class_items fuel cls children mc mk = .ok (cls', mc') →
      (keysOf mc).Nodup → (keysOf mc').Nodup) := by
  intro fuel
  induction fuel with
  | zero =>
    constructor
    · intro ns name mcat mtyp children mc mk mc' h
      exact absurd h (by simp [traverse_classes_rec])
    · intro cls children mc mk cls' mc' h
      exact absurd h (by simp [traverse_class_items])
  | succ fuel ih =>
    constructor
    · intro ns name mcat mtyp children mc mk mc' h hnd
      simp only [traverse_classes_rec] at h
      split at h
      · exact absurd h (by simp)
      · split at h
        · exact absurd h (by simp)
        · rename_i hmcSome
          have hmcNone : lookupA mc (to_ns_name ns name) = none := by
            cases hx : lookupA mc (to_ns_name ns name)
            · rfl
            · rw [hx] at hmcSome; simp at hmcSome
          split at h
          · exact absurd h (by simp)
          · rename_i cls1 map1 hitems
            injection h with h
            rw [← h, keysOf_updA]
            exact ih.2 _ _ _ _ _ _ hitems (nodup_append_key hmcNone hnd _)
    · intro cls children mc mk cls' mc' h hnd
      match children with
      | [] =>
        simp only [traverse_class_items] at h
        injection h with h
        injection h with h1 h2
        rw [← h2]
        exact hnd
      | child :: rest =>
        simp only [traverse_class_items] at h
        split at h
        · -- field element
          split at h
          · exact absurd h (by simp)
          · exact ih.2 _ _ _ _ _ _ h hnd
        · -- group element
          split at h
          · exact absurd h (by simp)
          · split at h
            · exact absurd h (by simp)
            · rename_i map1 hrec
              exact ih.2 _ _ _ _ _ _ h (ih.1 _ _ _ _ _ _ _ _ hrec hnd)
        · -- component element
          split at h
          · exact absurd h (by simp)
          · split at h
            · exact absurd h (by simp)
            · split at h
              · exact absurd h (by simp)
              · rename_i class1 map1 hexp
                exact ih.2 _ _ _ _ _ _ h (expand_nd _ _ _ _ _ _ _ _ _ hexp hnd)
        · exact absurd h (by simp)

theorem traverse_classes_nd_aux : ∀ (msgs : List MsgDef) (fuel : Nat)
    (mk : List (List String × ComponentMeta)) (m0 m : List (List String × ClassMeta)),
    msgs.foldlM (fun m msg =>
      traverse_classes_rec fuel [] msg.name (some msg.msgcat) (some msg.msgtype)
        msg.children m mk) m0 = .ok m →
    (keysOf m0).Nodup → (keysOf m).Nodup := by
  intro msgs
  induction msgs with
  | nil =>
    intro fuel mk m0 m h hnd
    simp only [List.foldlM_nil] at h
    injection h with h
    rw [← h]
    exact hnd
  | cons msg rest ih =>
    intro fuel mk m0 m h hnd
    rw [List.foldlM_cons] at h
    cases hstep : traverse_classes_rec fuel [] msg.name (some msg.msgcat)
        (some msg.msgtype) msg.children m0 mk with
    | error e =>
      rw [hstep] at h
      exact absurd h (by simp [Bind.bind, Except.bind])
    | ok m1 =>
      rw [hstep] at h
      have h' : rest.foldlM (fun m msg =>
          traverse_classes_rec fuel [] msg.name (some msg.msgcat) (some msg.msgtype)
            msg.children m mk) m1 = .ok m := h
      exact ih fuel mk m1 m h' ((traverse_nd fuel).1 _ _ _ _ _ _ _ _ hstep hnd)

/-- C4 (amended): no two classes produced by expansion share a qualified
namespace path — the key list of the class map is duplicate-free whenever
`traverse_classes` succeeds.  (The message-type half of the original claim
fails: type-code uniqueness is never checked; see the counterexample.) -/
theorem C4_namespace_uniqueness : ∀ (fuel : Nat) (msgs : List MsgDef)
    (mk : List (List String × ComponentMeta)) (m : List (List String × ClassMeta)),
    traverse_classes fuel msgs mk = .ok m → (keysOf m).Nodup := by
  intro fuel msgs mk m h
  exact traverse_classes_nd_aux msgs fuel mk [] m h (by simp [keysOf])

/-- Witness for C4: the two-message dictionary expands to a class map whose
namespace paths are pairwise distinct. -/
theorem C4_namespace_uniqueness_witness : (keysOf exMapSameType).Nodup :=
  C4_namespace_uniqueness 9 exMsgsSameType [] exMapSameType rfl

theorem lookupA_append_isSome {κ ν : Type} [BEq κ] (m1 m2 : List (κ × ν)) (k : κ)
    (h : (lookupA (m1 ++ m2) k).isSome = true) :
    (lookupA m1 k).isSome = true ∨ (lookupA m2 k).isSome = true := by
  rw [lookupA_append] at h
  cases h1 : lookupA m1 k
  · rw [h1] at h
    exact Or.inr h
  · exact Or.inl (by simp [h1])

theorem expand_fields_ok : ∀ (items : List Item) (k : Nat) (cls : ClassMeta)
    (gocNs : List String) (mc : List (List String × ClassMeta))
    (mk : List (List String × ComponentMeta)) (nsArg : List String),
    (∀ i ∈ items, i.kind = .fieldK) →
    (keysOf cls.items ++ items.map Item.name).Nodup →
    expand_component_rec (items.length + k + 1) cls gocNs items mc mk nsArg =
      .ok (⟨cls.ns_name, cls.msgcat, cls.msgtype,
            cls.items ++ items.map (fun i => (i.name, i))⟩, mc) := by
  intro items
  induction items with
  | nil =>
    intro k cls gocNs mc mk nsArg _ _
    simp only [List.length_nil, List.map_nil, List.append_nil, expand_component_rec]
  | cons i rest ih =>
    intro k cls gocNs mc mk nsArg hall hnd
    have hki : i.kind = .fieldK := hall i (List.mem_cons_self _ _)
    have hnone : lookupA cls.items i.name = none := lookupA_eq_none.mpr (by
      intro hmem
      rw [List.nodup_append] at hnd
      exact hnd.2.2 hmem (by simp))
    have harith : (i :: rest).length + k + 1 = rest.length + k + 1 + 1 := by
      rw [List.length_cons]; omega
    rw [harith]
    simp only [expand_component_rec, hki, hnone, Option.isSome_none, Bool.false_eq_true,
      if_false]
    rw [ih k ⟨cls.ns_name, cls.msgcat, cls.msgtype, cls.items ++ [(i.name, i)]⟩ gocNs mc
      mk nsArg (fun i' hi' => hall i' (List.mem_cons_of_mem _ hi'))
      (by simpa [keysOf, List.append_assoc] using hnd)]
    simp [List.append_assoc]

theorem expand_ns_preserved : ∀ (fuel : Nat) (cls : ClassMeta) (gocNs : List String)
    (items : List Item) (mc : List (List String × ClassMeta))
    (mk : List (List String × ComponentMeta)) (nsArg : List String)
    (cls' : ClassMeta) (mc' : List (List String × ClassMeta)),
    expand_component_rec fuel cls gocNs items mc mk nsArg = .ok (cls', mc') →
    cls'.ns_name = cls.ns_name := by
  intro fuel
  induction fuel with
  | zero =>
    intro cls gocNs items mc mk nsArg cls' mc' h
    exact absurd h (by simp [expand_component_rec])
  | succ fuel ih =>
    intro cls gocNs items mc mk nsArg cls' mc' h
    match items with
    | [] =>
      simp only [expand_component_rec] at h
      injection h with h
      injection h with h1 h2
      rw [← h1]
    | item :: rest =>
      simp only [expand_component_rec] at h
      split at h
      · split at h
        · exact absurd h (by simp)
        · have := ih _ _ _ _ _ _ _ _ h
          exact this
      · split at h
        · exact absurd h (by simp)
        · split at h
          · exact absurd h (by simp)
          · split at h
            · exact absurd h (by simp)
            · split at h
              · exact absurd h (by simp)
              · have := ih _ _ _ _ _ _ _ _ h
                exact this
      · split at h
        · exact absurd h (by simp)
        · split at h
          · exact absurd h (by simp)
          · rename_i cls2 mc2 hinner
            have h1 := ih _ _ _ _ _ _ _ _ h
            have h2 := ih _ _ _ _ _ _ _ _ hinner
            rw [h1, h2]

theorem expand_keys_below_cls : ∀ (fuel : Nat) (cls : ClassMeta) (gocNs : List String)
    (items : List Item) (mc : List (List String × ClassMeta))
    (mk : List (List String × ComponentMeta)) (nsArg : List String)
    (cls' : ClassMeta) (mc' : List (List String × ClassMeta)),
    expand_component_rec fuel cls gocNs items mc mk nsArg = .ok (cls', mc') →
    ∀ key, (lookupA mc' key).isSome = true →
      (lookupA mc key).isSome = true ∨ ∃ suf, suf ≠ [] ∧ key = cls.ns_name ++ suf := by
  intro fuel
  induction fuel with
  | zero =>
    intro cls gocNs items mc mk nsArg cls' mc' h
    exact absurd h (by simp [expand_component_rec])
  | succ fuel ih =>
    intro cls gocNs items mc mk nsArg cls' mc' h key hkey
    match items with
    | [] =>
      simp only [expand_component_rec] at h
      injection h with h
      injection h with h1 h2
      rw [← h2] at hkey
      exact Or.inl hkey
    | item :: rest =>
      simp only [expand_component_rec] at h
      split at h
      · -- field kind
        split at h
        · exact absurd h (by simp)
        · exact ih _ _ _ _ _ _ _ _ h key hkey
      · -- group kind
        split at h
        · exact absurd h (by simp)
        · split at h
          · exact absurd h (by simp)
          · split at h
            · exact absurd h (by simp)
            · split at h
              · exact absurd h (by simp)
              · rename_i sub1 mc2 hinner
                rcases ih _ _ _ _ _ _ _ _ h key hkey with hin | hsuf
                · rw [lookupA_updA_isSome] at hin
                  rcases ih _ _ _ _ _ _ _ _ hinner key hin with hin1 | hsuf1
                  · rcases lookupA_append_isSome _ _ _ hin1 with hmc | hone
                    · exact Or.inl hmc
                    · refine Or.inr ⟨[item.name], by simp, ?_⟩
                      have : (to_ns_name cls.ns_name item.name == key) = true := by
                        rw [lookupA_cons] at hone
                        cases hb : to_ns_name cls.ns_name item.name == key
                        · rw [hb] at hone; simp [lookupA] at hone
                        · rfl
                      have := eq_of_beq this
                      rw [← this]
                      rfl
                  · obtain ⟨suf, hne, hk⟩ := hsuf1
                    refine Or.inr ⟨item.name :: suf, by simp, ?_⟩
                    rw [hk]
                    simp [to_ns_name]
                · obtain ⟨suf, hne, hk⟩ := hsuf
                  exact Or.inr ⟨suf, hne, hk⟩
      · -- component kind
        split at h
        · exact absurd h (by simp)
        · split at h
          · exact absurd h (by simp)
          · rename_i cls2 mc2 hinner
            rcases ih _ _ _ _ _ _ _ _ h key hkey with hin | hsuf
            · exact ih _ _ _ _ _ _ _ _ hinner key hin
            · obtain ⟨suf, hne, hk⟩ := hsuf
              rw [expand_ns_preserved _ _ _ _ _ _ _ _ _ hinner] at hk
              exact Or.inr ⟨suf, hne, hk⟩

theorem expand_group_child : ∀ (g req : String) (k : Nat) (cls : ClassMeta)
    (gocNs : List String) (mc : List (List String × ClassMeta))
    (mk : List (List String × ComponentMeta)) (nsArg : List String) (comp : ComponentMeta),
    lookupA cls.items g = none →
    lookupA mc (to_ns_name cls.ns_name g) = none →
    lookupA mk (to_ns_name gocNs g) = some comp →
    (∀ i ∈ comp.items.map (fun p => p.2), i.kind = .fieldK) →
    ((comp.items.map (fun p => p.2)).map Item.name).Nodup →
    expand_component_rec (comp.items.length + k + 2) cls gocNs [⟨g, req, .groupK⟩] mc mk nsArg =
      .ok (⟨cls.ns_name, cls.msgcat, cls.msgtype, cls.items ++ [(g, ⟨g, req, .groupK⟩)]⟩,
           mc ++ [(to_ns_name cls.ns_name g,
             ⟨to_ns_name cls.ns_name g, none, none,
               (comp.items.map (fun p => p.2)).map (fun i => (i.name, i))⟩)]) := by
  intro g req k cls gocNs mc mk nsArg comp h1 h2 h3 hall hnd
  have harith : comp.items.length + k + 2 = (comp.items.map (fun p => p.2)).length + k + 1 + 1 := by
    rw [List.length_map]
  rw [harith]
  simp only [expand_component_rec, h1, h2, h3, Option.isSome_none, Bool.false_eq_true,
    if_false]
  rw [expand_fields_ok (comp.items.map (fun p => p.2)) k
    (⟨to_ns_name cls.ns_name g, none, none, []⟩ : ClassMeta) comp.ns_name
    (mc ++ [(to_ns_name cls.ns_name g,
      (⟨to_ns_name cls.ns_name g, none, none, []⟩ : ClassMeta))])
    mk (to_ns_name cls.ns_name g) hall (by simpa [keysOf] using hnd)]
  dsimp only
  rw [updA_append_fresh h2]
  simp

theorem expand_component_child : ∀ (c req : String) (k : Nat) (cls : ClassMeta)
    (gocNs : List String) (mc : List (List String × ClassMeta))
    (mk : List (List String × ComponentMeta)) (nsArg : List String) (comp : ComponentMeta),
    lookupA mk [c] = some comp →
    (∀ i ∈ comp.items.map (fun p => p.2), i.kind = .fieldK) →
    (keysOf cls.items ++ (comp.items.map (fun p => p.2)).map Item.name).Nodup →
    expand_component_rec (comp.items.length + k + 2) cls gocNs [⟨c, req, .componentK⟩] mc mk nsArg =
      .ok (⟨cls.ns_name, cls.msgcat, cls.msgtype,
            cls.items ++ (comp.items.map (fun p => p.2)).map (fun i => (i.name, i))⟩, mc) := by
  intro c req k cls gocNs mc mk nsArg comp h1 hall hnd
  have harith : comp.items.length + k + 2 = (comp.items.map (fun p => p.2)).length + k + 1 + 1 := by
    rw [List.length_map]
  rw [harith]
  simp only [expand_component_rec, h1]
  rw [expand_fields_ok (comp.items.map (fun p => p.2)) k cls comp.ns_name mc mk
    cls.ns_name hall hnd]

/-- C2: the scoping rules of expansion.  (1) Every class key that expansion
adds to the class map lies strictly below the current class's qualified
namespace — never in the dictionary-global namespace.  (2) A group child
opens a fresh namespace `cls.ns ++ [g]` rooted under the current class,
producing a new `ClassDef` there whose body is resolved in the component
registry under the originating component's own namespace `gocNs ++ [g]`.
(3) A component child is inlined: its fields are spliced into the current
class and the class map is returned unchanged — no new `ClassDef`. -/
theorem C2_group_vs_component_scoping :
    (∀ (fuel : Nat) (cls : ClassMeta) (gocNs : List String) (items : List Item)
        (mc : List (List String × ClassMeta)) (mk : List (List String × ComponentMeta))
        (nsArg : List String) (cls' : ClassMeta) (mc' : List (List String × ClassMeta)),
      expand_component_rec fuel cls gocNs items mc mk nsArg = .ok (cls', mc') →
      ∀ key, (lookupA mc' key).isSome = true →
        (lookupA mc key).isSome = true ∨ ∃ suf, suf ≠ [] ∧ key = cls.ns_name ++ suf) ∧
    (∀ (g req : String) (k : Nat) (cls : ClassMeta) (gocNs : List String)
        (mc : List (List String × ClassMeta)) (mk : List (List String × ComponentMeta))
        (nsArg : List String) (comp : ComponentMeta),
      lookupA cls.items g = none →
      lookupA mc (to_ns_name cls.ns_name g) = none →
      lookupA mk (to_ns_name gocNs g) = some comp →
      (∀ i ∈ comp.items.map (fun p => p.2), i.kind = .fieldK) →
      ((comp.items.map (fun p => p.2)).map Item.name).Nodup →
      expand_component_rec (comp.items.length + k + 2) cls gocNs [⟨g, req, .groupK⟩] mc mk nsArg =
        .ok (⟨cls.ns_name, cls.msgcat, cls.msgtype, cls.items ++ [(g, ⟨g, req, .groupK⟩)]⟩,
             mc ++ [(to_ns_name cls.ns_name g,
               ⟨to_ns_name cls.ns_name g, none, none,
                 (comp.items.map (fun p => p.2)).map (fun i => (i.name, i))⟩)])) ∧
    (∀ (c req : String) (k : Nat) (cls : ClassMeta) (gocNs : List String)
        (mc : List (List String × ClassMeta)) (mk : List (List String × ComponentMeta))
        (nsArg : List String) (comp : ComponentMeta),
      lookupA mk [c] = some comp →
      (∀ i ∈ comp.items.map (fun p => p.2), i.kind = .fieldK) →
      (keysOf cls.items ++ (comp.items.map (fun p => p.2)).map Item.name).Nodup →
      expand_component_rec (comp.items.length + k + 2) cls gocNs [⟨c, req, .componentK⟩] mc mk nsArg =
        .ok (⟨cls.ns_name, cls.msgcat, cls.msgtype,
              cls.items ++ (comp.items.map (fun p => p.2)).map (fun i => (i.name, i))⟩, mc)) :=
  ⟨expand_keys_below_cls, expand_group_child, expand_component_child⟩

/-- Witness for C2: in a registry holding component `Instrument` (one field
`Symbol`) with a nested group `NoLegs` recorded under `Instrument`, a
component child splices the field into the class `Quote` adding no class,
a group child creates exactly the class `Quote.NoLegs`, and the fresh key
indeed extends the current class's namespace. -/
theorem C2_group_vs_component_scoping_witness :
    expand_component_rec 3 ⟨["Quote"], some "app", some "S", []⟩ []
        [⟨"Instrument", "Y", .componentK⟩] []
        [(["Instrument"], ⟨["Instrument"], [("Symbol", ⟨"Symbol", "Y", .fieldK⟩)]⟩),
         (["Instrument", "NoLegs"],
          ⟨["Instrument", "NoLegs"], [("LegSymbol", ⟨"LegSymbol", "Y", .fieldK⟩)]⟩)] [] =
      .ok (⟨["Quote"], some "app", some "S", [("Symbol", ⟨"Symbol", "Y", .fieldK⟩)]⟩, []) ∧
    expand_component_rec 3 ⟨["Quote"], some "app", some "S", []⟩ ["Instrument"]
        [⟨"NoLegs", "N", .groupK⟩] []
        [(["Instrument"], ⟨["Instrument"], [("Symbol", ⟨"Symbol", "Y", .fieldK⟩)]⟩),
         (["Instrument", "NoLegs"],
          ⟨["Instrument", "NoLegs"], [("LegSymbol", ⟨"LegSymbol", "Y", .fieldK⟩)]⟩)] [] =
      .ok (⟨["Quote"], some "app", some "S", [("NoLegs", ⟨"NoLegs", "N", .groupK⟩)]⟩,
           [(["Quote", "NoLegs"],
             ⟨["Quote", "NoLegs"], none, none,
              [("LegSymbol", ⟨"LegSymbol", "Y", .fieldK⟩)]⟩)]) ∧
    (∃ suf, suf ≠ [] ∧ ["Quote", "NoLegs"] = ["Quote"] ++ suf) := by
  refine ⟨?_, ?_, ?_⟩
  · exact C2_group_vs_component_scoping.2.2 "Instrument" "Y" 0
      ⟨["Quote"], some "app", some "S", []⟩ [] []
      [(["Instrument"], ⟨["Instrument"], [("Symbol", ⟨"Symbol", "Y", .fieldK⟩)]⟩),
       (["Instrument", "NoLegs"],
        ⟨["Instrument", "NoLegs"], [("LegSymbol", ⟨"LegSymbol", "Y", .fieldK⟩)]⟩)] []
      ⟨["Instrument"], [("Symbol", ⟨"Symbol", "Y", .fieldK⟩)]⟩
      rfl (by decide) (by decide)
  · exact C2_group_vs_component_scoping.2.1 "NoLegs" "N" 0
      ⟨["Quote"], some "app", some "S", []⟩ ["Instrument"] []
      [(["Instrument"], ⟨["Instrument"], [("Symbol", ⟨"Symbol", "Y", .fieldK⟩)]⟩),
       (["Instrument", "NoLegs"],
        ⟨["Instrument", "NoLegs"], [("LegSymbol", ⟨"LegSymbol", "Y", .fieldK⟩)]⟩)] []
      ⟨["Instrument", "NoLegs"], [("LegSymbol", ⟨"LegSymbol", "Y", .fieldK⟩)]⟩
      rfl rfl rfl (by decide) (by decide)
  · have hb := C2_group_vs_component_scoping.2.1 "NoLegs" "N" 0
      ⟨["Quote"], some "app", some "S", []⟩ ["Instrument"] []
      [(["Instrument"], ⟨["Instrument"], [("Symbol", ⟨"Symbol", "Y", .fieldK⟩)]⟩),
       (["Instrument", "NoLegs"],
        ⟨["Instrument", "NoLegs"], [("LegSymbol", ⟨"LegSymbol", "Y", .fieldK⟩)]⟩)] []
      ⟨["Instrument", "NoLegs"], [("LegSymbol", ⟨"LegSymbol", "Y", .fieldK⟩)]⟩
      rfl rfl rfl (by decide) (by decide)
    have hp := C2_group_vs_component_scoping.1 _ _ _ _ _ _ _ _ _ hb
      ["Quote", "NoLegs"] (by rfl)
    rcases hp with h | h
    · simp [lookupA] at h
    · exact h
